import Mathlib

/-!
Verification of the xkcd geohashing implementation (`geohashing.py`).

The program computes geographic coordinates from a calendar date and a Dow
Jones index value.  Its numeric core goes through CPython `float` semantics:
IEEE-754 double rounding, shortest round-trip `repr` formatting, and decimal
string parsing.  This file models those semantics exactly over `ℚ`
(a finite double is a rational of the form `m * 2^c` with `2^52 ≤ m < 2^53`),
models MD5 over byte lists, and embeds each function of the source faithfully.
Python strings are modelled as `List Char` (all strings involved are ASCII).
-/

set_option maxRecDepth 100000

namespace Geohashing

/-! ## Fuel-based floor logarithm over ℕ -/

/-- Floor logarithm of `n` in base `b` computed with explicit fuel, so that it
reduces in the kernel. -/
def logFuel (b : ℕ) : ℕ → ℕ → ℕ
  | 0, _ => 0
  | f+1, n => if n < b then 0 else logFuel b f (n / b) + 1

/-- Floor logarithm in base `b` (assumes `2 ≤ b`; returns 0 on `n = 0`). -/
def natLog (b n : ℕ) : ℕ := logFuel b n n

/-- Integer power `(b : ℚ)^e`, computed through `ℕ` exponentiation (which the
kernel evaluates fast) instead of iterated multiplication. -/
def zp (b : ℕ) (e : ℤ) : ℚ :=
  if 0 ≤ e then ((b^e.toNat : ℕ) : ℚ) else ((b^(-e).toNat : ℕ) : ℚ)⁻¹

/-! ## Round half to even over ℚ -/

/-- Round a rational to the nearest integer, ties to even (IEEE-754 default
rounding, as used by CPython for `float` operations). -/
def rhe (q : ℚ) : ℤ :=
  if q - (⌊q⌋ : ℚ) < 1/2 then ⌊q⌋
  else if 1/2 < q - (⌊q⌋ : ℚ) then ⌊q⌋ + 1
  else if ⌊q⌋ % 2 = 0 then ⌊q⌋ else ⌊q⌋ + 1

/-! ## Floor logarithm over ℚ -/

/-- Floor logarithm of a positive rational in base `b`, as an integer. -/
def flogB (b : ℕ) (a : ℚ) : ℤ :=
  let g : ℤ := (natLog b a.num.toNat : ℤ) - (natLog b a.den : ℤ)
  if zp b g ≤ a then g else g - 1

/-! ## IEEE-754 double rounding over ℚ

A finite positive double is `m * 2^c` with `2^52 ≤ m < 2^53` (we do not model
overflow or subnormals: every value reached by the program is comfortably
inside the normal range). -/

/-- Round a positive rational to the nearest double (53 significant bits),
ties to even. -/
def roundPos (a : ℚ) : ℚ :=
  let e := flogB 2 a
  ((rhe (a * zp 2 (52 - e)) : ℚ)) * zp 2 (e - 52)

/-- Round a rational to the nearest IEEE-754 binary64 value, ties to even.
This is the rounding CPython applies to every arithmetic operation and to
decimal/hexadecimal string conversion. -/
def roundDouble (q : ℚ) : ℚ :=
  if q = 0 then 0 else if q < 0 then -roundPos (-q) else roundPos q

/-- `x` is a (nonzero, normal-form) positive double value. -/
def IsNormal (x : ℚ) : Prop :=
  ∃ m c : ℤ, 2^52 ≤ m ∧ m < 2^53 ∧ x = (m : ℚ) * (2:ℚ)^c

/-- `x` is representable exactly as a double (zero, or `±` a normal value). -/
def IsDouble (x : ℚ) : Prop := roundDouble x = x

/-! ## Decimal digit strings -/

/-- The ASCII character of a decimal digit. -/
def digitChar (d : ℕ) : Char := Char.ofNat (48 + d)

/-- Numeric value of a decimal digit character. -/
def digitVal (c : Char) : ℕ := c.toNat - 48

/-- `c` is an ASCII decimal digit. -/
def isDigitCh (c : Char) : Bool := 48 ≤ c.toNat && c.toNat ≤ 57

/-- Fuel-based accumulator loop producing the decimal digits of a natural. -/
def natDigitsAux : ℕ → ℕ → List Char → List Char
  | 0, _, acc => acc
  | f+1, n, acc =>
    if n < 10 then digitChar n :: acc
    else natDigitsAux f (n / 10) (digitChar (n % 10) :: acc)

/-- Decimal digit characters of `n` (Python `str` of a nonnegative int). -/
def natDigits (n : ℕ) : List Char := natDigitsAux (n+1) n []

/-- Value of a list of decimal digit characters. -/
def digitsVal (l : List Char) : ℕ := l.foldl (fun a c => 10 * a + digitVal c) 0

/-- Python `str` of an integer. -/
def intStr (i : ℤ) : List Char :=
  if i < 0 then '-' :: natDigits (-i).toNat else natDigits i.toNat

/-- Truncation toward zero, Python `int()` applied to a float. -/
def truncQ (q : ℚ) : ℤ := if 0 ≤ q then ⌊q⌋ else -⌊-q⌋

/-! ## CPython float `repr`

CPython prints a float as the shortest decimal string that parses back to the
same double (correctly rounded); positional notation is used when the decimal
exponent `n` satisfies `-4 ≤ n < 16`, scientific notation otherwise, with the
exponent printed as at least two digits. -/

/-- Exponent suffix of scientific notation, e.g. `e-05`, `e+20`. -/
def expChars (n : ℤ) : List Char :=
  let ds := natDigits n.natAbs
  let ds2 := if ds.length < 2 then '0' :: ds else ds
  'e' :: (if n < 0 then '-' else '+') :: ds2

/-- Scientific-notation rendering of significand digits `digs` and decimal
exponent `n` (`d.dddde±XX`; no decimal point for a single digit). -/
def sciChars (digs : List Char) (n : ℤ) : List Char :=
  match digs with
  | [] => expChars n
  | d :: rest => d :: ((if rest.isEmpty then [] else '.' :: rest) ++ expChars n)

/-- Positional rendering of significand digits `digs` and decimal exponent
`n` (`0.0ddd`, `dd.dd`, or `ddd0.0`). -/
def posChars (digs : List Char) (n : ℤ) : List Char :=
  if n < 0 then '0' :: '.' :: (List.replicate (-n - 1).toNat '0' ++ digs)
  else if (digs.length : ℤ) - 1 ≤ n then
    digs ++ (List.replicate (n + 1 - digs.length).toNat '0' ++ ['.', '0'])
  else digs.take (n.toNat + 1) ++ '.' :: digs.drop (n.toNat + 1)

/-- Candidate significand for `a` at precision `p` given decimal floor-log
`nd`: the correctly rounded `p`-digit significand, renormalised when rounding
overflows to `10^p`.  Returns the digits as a natural plus the (possibly
bumped) decimal exponent. -/
def tryPrec (a : ℚ) (nd : ℤ) (p : ℕ) : ℕ × ℤ :=
  let D := (rhe (a * (10:ℚ)^((p:ℤ) - 1 - nd))).toNat
  if D = 10^p then (10^(p-1), nd + 1) else (D, nd)

/-- Shortest round-trip search: try precisions `p, p+1, ...` while fuel lasts,
returning the first correctly rounded candidate that parses back to `x`
(17 digits always suffice for a double, so the fuel never actually runs
out when started at `p = 1` with fuel 17). -/
def sigSearch (x a : ℚ) (nd : ℤ) : ℕ → ℕ → ℕ × ℕ × ℤ
  | 0, p => (p, tryPrec a nd p)
  | f+1, p =>
    let c := tryPrec a nd p
    if roundDouble ((c.1 : ℚ) * (10:ℚ)^(c.2 + 1 - (p:ℤ))) = x then (p, c)
    else sigSearch x a nd f (p+1)

/-- CPython `repr` of a positive double. -/
def reprPos (x : ℚ) : List Char :=
  if -4 ≤ (sigSearch x x (flogB 10 x) 17 1).2.2 ∧ (sigSearch x x (flogB 10 x) 17 1).2.2 < 16
  then posChars (natDigits (sigSearch x x (flogB 10 x) 17 1).2.1)
    (sigSearch x x (flogB 10 x) 17 1).2.2
  else sciChars (natDigits (sigSearch x x (flogB 10 x) 17 1).2.1)
    (sigSearch x x (flogB 10 x) 17 1).2.2

/-- CPython `repr`/`str` of a double (`str(float)` in the source). -/
def reprDouble (x : ℚ) : List Char :=
  if x = 0 then ['0', '.', '0'] else if x < 0 then '-' :: reprPos (-x) else reprPos x

/-! ## Decimal string parsing (Python `float(str)`) -/

/-- Signed exponent denoted by the `e`-suffix part of a decimal string (the
part starting at the letter `e`; empty when there is no exponent). -/
def parseExp (rest : List Char) : ℤ :=
  if (rest.drop 1).head? = some '-' ∨ (rest.drop 1).head? = some '+' then
    (if (rest.drop 1).head? = some '-' then -(digitsVal (rest.drop 2) : ℤ)
     else (digitsVal (rest.drop 2) : ℤ))
  else (digitsVal (rest.drop 1) : ℤ)

/-- Unsigned mantissa denoted by a decimal string without sign or exponent:
integer part, then an optional fractional part after the dot. -/
def parseMant (mant : List Char) : ℚ :=
  (digitsVal (mant.takeWhile (fun c => c != '.')) : ℚ) +
    (digitsVal ((mant.dropWhile (fun c => c != '.')).drop 1) : ℚ) /
      (10:ℚ)^((mant.dropWhile (fun c => c != '.')).drop 1).length

/-- Exact rational value denoted by a decimal string with optional sign,
fraction and exponent (the shapes produced by this program). -/
def parseDecimal (s : List Char) : ℚ :=
  (if s.head? = some '-' then (-1:ℚ) else 1) *
    parseMant ((if s.head? = some '-' then s.drop 1 else s).takeWhile (fun c => c != 'e')) *
    (10:ℚ)^(parseExp ((if s.head? = some '-' then s.drop 1 else s).dropWhile (fun c => c != 'e')))

/-- Python `float(s)`: the decimal value correctly rounded to a double. -/
def parseFloat (s : List Char) : ℚ := roundDouble (parseDecimal s)

/-! ## Hexadecimal fractions (Python `float.fromhex`) -/

/-- Value of a lowercase hexadecimal digit character. -/
def hexDigitVal (c : Char) : ℕ := if c.toNat ≤ 57 then c.toNat - 48 else c.toNat - 87

/-- `c` is a lowercase hexadecimal digit. -/
def isHexCh (c : Char) : Bool :=
  (48 ≤ c.toNat && c.toNat ≤ 57) || (97 ≤ c.toNat && c.toNat ≤ 102)

/-- Value of a lowercase hexadecimal digit string. -/
def hexVal (l : List Char) : ℕ := l.foldl (fun a c => 16 * a + hexDigitVal c) 0

/-- Python `float.fromhex("0." ++ h)`: the hexadecimal fraction correctly
rounded to a double. -/
def fromhexVal (h : List Char) : ℚ :=
  roundDouble ((hexVal h : ℚ) / (16:ℚ)^h.length)

/-! ## MD5 (RFC 1321), over byte lists, words as `ℕ` mod `2^32` -/

/-- The 64 MD5 sine-derived constants. -/
def md5K : List ℕ :=
  [0xd76aa478, 0xe8c7b756, 0x242070db, 0xc1bdceee,
   0xf57c0faf, 0x4787c62a, 0xa8304613, 0xfd469501,
   0x698098d8, 0x8b44f7af, 0xffff5bb1, 0x895cd7be,
   0x6b901122, 0xfd987193, 0xa679438e, 0x49b40821,
   0xf61e2562, 0xc040b340, 0x265e5a51, 0xe9b6c7aa,
   0xd62f105d, 0x02441453, 0xd8a1e681, 0xe7d3fbc8,
   0x21e1cde6, 0xc33707d6, 0xf4d50d87, 0x455a14ed,
   0xa9e3e905, 0xfcefa3f8, 0x676f02d9, 0x8d2a4c8a,
   0xfffa3942, 0x8771f681, 0x6d9d6122, 0xfde5380c,
   0xa4beea44, 0x4bdecfa9, 0xf6bb4b60, 0xbebfbc70,
   0x289b7ec6, 0xeaa127fa, 0xd4ef3085, 0x04881d05,
   0xd9d4d039, 0xe6db99e5, 0x1fa27cf8, 0xc4ac5665,
   0xf4292244, 0x432aff97, 0xab9423a7, 0xfc93a039,
   0x655b59c3, 0x8f0ccc92, 0xffeff47d, 0x85845dd1,
   0x6fa87e4f, 0xfe2ce6e0, 0xa3014314, 0x4e0811a1,
   0xf7537e82, 0xbd3af235, 0x2ad7d2bb, 0xeb86d391]

/-- The 64 MD5 per-round left-rotation amounts. -/
def md5S : List ℕ :=
  [7, 12, 17, 22, 7, 12, 17, 22, 7, 12, 17, 22, 7, 12, 17, 22,
   5, 9, 14, 20, 5, 9, 14, 20, 5, 9, 14, 20, 5, 9, 14, 20,
   4, 11, 16, 23, 4, 11, 16, 23, 4, 11, 16, 23, 4, 11, 16, 23,
   6, 10, 15, 21, 6, 10, 15, 21, 6, 10, 15, 21, 6, 10, 15, 21]

/-- 32-bit left rotation. -/
def rotl32 (x n : ℕ) : ℕ := ((x <<< n) + (x >>> (32 - n))) % 4294967296

/-- Bitwise complement within 32 bits (arguments are kept below `2^32`). -/
def not32 (x : ℕ) : ℕ := Nat.xor x 4294967295

/-- Little-endian 32-bit word `g` of a 64-byte chunk. -/
def wordAt (chunk : List ℕ) (g : ℕ) : ℕ :=
  chunk.getD (4*g) 0 + 256 * chunk.getD (4*g+1) 0 +
    65536 * chunk.getD (4*g+2) 0 + 16777216 * chunk.getD (4*g+3) 0

/-- One MD5 round: mixes round index `i` into the state. -/
def md5Round (chunk : List ℕ) (st : ℕ × ℕ × ℕ × ℕ) (i : ℕ) : ℕ × ℕ × ℕ × ℕ :=
  let a := st.1
  let b := st.2.1
  let c := st.2.2.1
  let d := st.2.2.2
  let f :=
    if i < 16 then Nat.lor (Nat.land b c) (Nat.land (not32 b) d)
    else if i < 32 then Nat.lor (Nat.land d b) (Nat.land (not32 d) c)
    else if i < 48 then Nat.xor (Nat.xor b c) d
    else Nat.xor c (Nat.lor b (not32 d))
  let g :=
    if i < 16 then i
    else if i < 32 then (5*i + 1) % 16
    else if i < 48 then (3*i + 5) % 16
    else (7*i) % 16
  let tmp := (f + a + md5K.getD i 0 + wordAt chunk g) % 4294967296
  (d, (b + rotl32 tmp (md5S.getD i 0)) % 4294967296, b, c)

/-- Process one 64-byte chunk. -/
def md5Chunk (st : ℕ × ℕ × ℕ × ℕ) (chunk : List ℕ) : ℕ × ℕ × ℕ × ℕ :=
  let r := (List.range 64).foldl (md5Round chunk) st
  ((st.1 + r.1) % 4294967296, (st.2.1 + r.2.1) % 4294967296,
   (st.2.2.1 + r.2.2.1) % 4294967296, (st.2.2.2 + r.2.2.2) % 4294967296)

/-- Fold over successive 64-byte chunks (fuel-based for kernel reduction). -/
def md5Chunks : ℕ → List ℕ → ℕ × ℕ × ℕ × ℕ → ℕ × ℕ × ℕ × ℕ
  | 0, _, st => st
  | f+1, bytes, st =>
    match bytes with
    | [] => st
    | _ :: _ => md5Chunks f (bytes.drop 64) (md5Chunk st (bytes.take 64))

/-- MD5 padding: `0x80`, zeros to 56 mod 64, then the bit length as eight
little-endian bytes. -/
def md5Pad (msg : List ℕ) : List ℕ :=
  let n := (8 * msg.length) % 18446744073709551616
  msg ++ 128 :: (List.replicate ((119 - msg.length % 64) % 64) 0 ++
    [n % 256, n / 256 % 256, n / 65536 % 256, n / 16777216 % 256,
     n / 4294967296 % 256, n / 1099511627776 % 256,
     n / 281474976710656 % 256, n / 72057594037927936 % 256])

/-- MD5 digest of a byte list, as 16 bytes. -/
def md5Bytes (msg : List ℕ) : List ℕ :=
  let padded := md5Pad msg
  let r := md5Chunks padded.length padded (1732584193, 4023233417, 2562383102, 271733878)
  [r.1 % 256, r.1 / 256 % 256, r.1 / 65536 % 256, r.1 / 16777216 % 256,
   r.2.1 % 256, r.2.1 / 256 % 256, r.2.1 / 65536 % 256, r.2.1 / 16777216 % 256,
   r.2.2.1 % 256, r.2.2.1 / 256 % 256, r.2.2.1 / 65536 % 256, r.2.2.1 / 16777216 % 256,
   r.2.2.2 % 256, r.2.2.2 / 256 % 256, r.2.2.2 / 65536 % 256, r.2.2.2 / 16777216 % 256]

/-- Lowercase hexadecimal character of `n % 16`. -/
def hexChar (n : ℕ) : Char :=
  if n % 16 < 10 then Char.ofNat (48 + n % 16) else Char.ofNat (87 + n % 16)

/-- `hashlib.md5(bytes).hexdigest()`: 32 lowercase hex characters. -/
def md5Hex (msg : List ℕ) : List Char :=
  (md5Bytes msg).flatMap (fun b => [hexChar (b / 16), hexChar b])

/-- MD5 hexdigest of an ASCII string (UTF-8 encoding of ASCII is identity). -/
def md5HexCh (s : List Char) : List Char := md5Hex (s.map Char.toNat)

/-! ## Calendar dates (`datetime.date`, proleptic Gregorian) -/

/-- A calendar date. -/
structure GDate where
  year : ℕ
  month : ℕ
  day : ℕ

/-- Gregorian leap-year rule. -/
def isLeap (y : ℕ) : Bool := (y % 4 == 0 && y % 100 != 0) || y % 400 == 0

/-- Number of days of month `m` in year `y`. -/
def daysInMonth (y m : ℕ) : ℕ :=
  if m = 2 then (if isLeap y then 29 else 28)
  else if m = 4 ∨ m = 6 ∨ m = 9 ∨ m = 11 then 30
  else 31

/-- `date + timedelta(days=-1)`: the previous calendar day. -/
def prevDay (d : GDate) : GDate :=
  if 2 ≤ d.day then ⟨d.year, d.month, d.day - 1⟩
  else if 2 ≤ d.month then ⟨d.year, d.month - 1, daysInMonth d.year (d.month - 1)⟩
  else ⟨d.year - 1, 12, 31⟩

/-- Zero-pad the decimal digits of `n` to width `w` (`strftime` fields). -/
def padNum (w n : ℕ) : List Char :=
  let ds := natDigits n
  List.replicate (w - ds.length) '0' ++ ds

/-- `date.strftime("%Y-%m-%d")`. -/
def fmtDash (d : GDate) : List Char :=
  padNum 4 d.year ++ '-' :: (padNum 2 d.month ++ '-' :: padNum 2 d.day)

/-- `date.strftime("%Y/%m/%d")`. -/
def fmtSlash (d : GDate) : List Char :=
  padNum 4 d.year ++ '/' :: (padNum 2 d.month ++ '/' :: padNum 2 d.day)

/-! ## Dow Jones retrieval (`get_dow_jones`)

The network is abstracted as a function from the requested URL to the
outcome of the request: a read timeout, or a response with a status code and
a text body. -/

/-- Outcome of one HTTP request. -/
inductive SourceResult where
  | timeout : SourceResult
  | response (status : ℕ) (body : List Char) : SourceResult

/-- The five Dow Jones sources, in the source's fixed preference order. -/
def dowSources : List (List Char) :=
  [("https://data.geohashing.info/dow/").toList,
   ("http://geo.crox.net/djia/").toList,
   ("http://www1.geo.crox.net/djia/").toList,
   ("http://www2.geo.crox.net/djia/").toList,
   ("http://carabiner.peeron.com/xkcd/map/data/").toList]

/-- The exception message raised when every source fails. -/
def sourcesErrMsg : List Char :=
  ("None of the programmed Dow Jones sources are online, or no data exists for your date yet.\nTry providing one manually.").toList

/-- ASCII whitespace stripped by Python `str.strip()`. -/
def isPySpace (c : Char) : Bool :=
  c == ' ' || c == '\t' || c == '\n' || c == '\r' || c == '\x0b' || c == '\x0c'

/-- Python `str.strip()`. -/
def pyStrip (l : List Char) : List Char :=
  ((l.dropWhile isPySpace).reverse.dropWhile isPySpace).reverse

/-- The retrieval loop of `get_dow_jones`: try each source URL in order with
the date-keyed path appended; skip on timeout or non-200 status; return the
stripped body of the first 200 response; raise if the list is exhausted. -/
def dowLoop (key : List Char) (env : List Char → SourceResult) :
    List (List Char) → Except (List Char) (List Char)
  | [] => .error sourcesErrMsg
  | u :: rest =>
    match env (u ++ key) with
    | .timeout => dowLoop key env rest
    | .response s b => if s = 200 then .ok (pyStrip b) else dowLoop key env rest

/-- `get_dow_jones(east, date)`: shift the date back one day when `east`,
format it `%Y/%m/%d`, and run the retrieval loop. -/
def getDowJones (east : Bool) (date : GDate) (env : List Char → SourceResult) :
    Except (List Char) (List Char) :=
  dowLoop (fmtSlash (if east then prevDay date else date)) env dowSources

/-! ## The hash and location functions -/

/-- `get_hash(east, date, dow_jones)`: fetch the index value if not supplied,
then MD5 the string `"<%Y-%m-%d>-<value>"` built from the original date. -/
def getHash (east : Bool) (date : GDate) (dj : Option (List Char))
    (env : List Char → SourceResult) : Except (List Char) (List Char) :=
  match dj with
  | some s => .ok (md5HexCh (fmtDash date ++ '-' :: s))
  | none => (getDowJones east date env).map (fun v => md5HexCh (fmtDash date ++ '-' :: v))

/-- `hash_to_location(u_lat, u_lon, md5_hash)`: split the digest into two
16-character halves, turn each into a float via `float.fromhex("0." + h)`,
take the textual fraction `str(f)[1:]`, append it to `str(int(u))`, and parse
the result back to a float. -/
def hashToLocation (uLat uLon : ℚ) (hash : List Char) : ℚ × ℚ :=
  let h1 := hash.take 16
  let h2 := hash.drop 16
  (parseFloat (intStr (truncQ uLat) ++ (reprDouble (fromhexVal h1)).drop 1),
   parseFloat (intStr (truncQ uLon) ++ (reprDouble (fromhexVal h2)).drop 1))

/-- The 30W-compliance resolution inlined in `geohash`: an explicit override
wins; otherwise `east` is `lon > -30`. -/
def eastFlag (east : Option Bool) (lon : ℚ) : Bool :=
  match east with
  | some b => b
  | none => decide (-30 < lon)

/-- `geohash(lat, lon, date, dow_jones, east)`. -/
def geohash (lat lon : ℚ) (date : GDate) (dj : Option (List Char))
    (east : Option Bool) (env : List Char → SourceResult) :
    Except (List Char) (ℚ × ℚ) :=
  (getHash (eastFlag east lon) date dj env).map (hashToLocation lat lon)

/-- `globalhash(date, dow_jones)`: the graticule-(0,0) geohash with forced
eastern compliance, rescaled to the full globe (each arithmetic operation is
a double operation, hence rounded). -/
def globalhash (date : GDate) (dj : Option (List Char))
    (env : List Char → SourceResult) : Except (List Char) (ℚ × ℚ) :=
  (geohash 0 0 date dj (some true) env).map (fun p =>
    (roundDouble (roundDouble (p.1 * 180) - 90),
     roundDouble (roundDouble (p.2 * 360) - 180)))

/-! ## Centicule adjustment (`replace_tenths`) -/

/-- `pat` is a prefix of the second list. -/
def startsWith : List Char → List Char → Bool
  | [], _ => true
  | _ :: _, [] => false
  | p :: ps, c :: cs => p == c && startsWith ps cs

/-- Fuel-based body of Python `str.replace` (replace every non-overlapping
occurrence, scanning left to right). -/
def replaceAllFuel : ℕ → List Char → List Char → List Char → List Char
  | 0, s, _, _ => s
  | f+1, s, pat, rep =>
    match s with
    | [] => []
    | c :: rest =>
      if startsWith pat s then rep ++ replaceAllFuel f (s.drop pat.length) pat rep
      else c :: replaceAllFuel f rest pat rep

/-- Python `s.replace(pat, rep)` for a nonempty pattern. -/
def replaceAll (s pat rep : List Char) : List Char := replaceAllFuel s.length s pat rep

/-- `replace_tenths(dst, src)`: compute the tenths digits of both floats via
`int(abs(x) * 10) % 10`, textually replace `".{old}"` by `".{new}"` in
`str(dst)`, and parse the result back to a float. -/
def replaceTenths (dst src : ℚ) : ℚ :=
  let newT := (truncQ (roundDouble (|src| * 10))).emod 10
  let oldT := (truncQ (roundDouble (|dst| * 10))).emod 10
  let s := reprDouble dst
  parseFloat (replaceAll s ('.' :: natDigits oldT.toNat) ('.' :: natDigits newT.toNat))

/-- The standalone value of the textual fractional offset which
`hash_to_location` derives from a 16-character digest half: the string
`str(float.fromhex("0." + h))[1:]` re-read as a decimal fraction (with the
leading zero of `"0.xxx"` restored). -/
def fracOffset (h : List Char) : ℚ :=
  parseFloat ('0' :: (reprDouble (fromhexVal h)).drop 1)

/-- A request outcome that `get_dow_jones` skips: a read timeout, or a
response whose status is not 200. -/
def failsB (r : SourceResult) : Bool :=
  match r with
  | .timeout => true
  | .response s _ => if s = 200 then false else true

/-- A concrete network environment: one URL answers with status 200, every
other request times out. -/
def envW : List Char → SourceResult := fun url =>
  if url = ("ck").toList then SourceResult.response 200 ((" body ").toList)
  else SourceResult.timeout

/-- A network environment where every request times out. -/
def envT : List Char → SourceResult := fun _ => SourceResult.timeout

/-! # Lemmas -/

lemma zp_eq (b : ℕ) (e : ℤ) : zp b e = (b:ℚ)^e := by
  unfold zp
  by_cases h : 0 ≤ e
  · rw [if_pos h]
    rw [show ((b^e.toNat : ℕ) : ℚ) = ((b:ℚ))^(e.toNat : ℕ) by push_cast; ring]
    rw [← zpow_natCast]
    congr 1
    omega
  · rw [if_neg h]
    rw [show ((b^(-e).toNat : ℕ) : ℚ) = ((b:ℚ))^((-e).toNat : ℕ) by push_cast; ring]
    rw [← zpow_natCast, ← zpow_neg]
    congr 1
    omega

/-! ## Floor logarithms -/

lemma logFuel_bracket {b : ℕ} (hb : 2 ≤ b) :
    ∀ f n, 1 ≤ n → n < b^f →
      b^(logFuel b f n) ≤ n ∧ n < b^(logFuel b f n + 1) := by
  intro f
  induction f with
  | zero =>
    intro n h1 h2
    simp only [pow_zero] at h2
    omega
  | succ f ih =>
    intro n h1 h2
    by_cases h : n < b
    · simp only [logFuel, h, if_true]
      constructor
      · simpa using h1
      · simpa using h
    · simp only [logFuel, h, if_false]
      have hb0 : 0 < b := by omega
      have hd1 : 1 ≤ n / b := (Nat.one_le_div_iff hb0).2 (by omega)
      have hdf : n / b < b^f := by
        rw [Nat.div_lt_iff_lt_mul hb0]
        calc n < b^(f+1) := h2
          _ = b^f * b := by rw [pow_succ]
      obtain ⟨hl, hr⟩ := ih (n / b) hd1 hdf
      constructor
      · calc b^(logFuel b f (n/b) + 1) = b^(logFuel b f (n/b)) * b := by rw [pow_succ]
          _ ≤ (n / b) * b := Nat.mul_le_mul_right b hl
          _ ≤ n := Nat.div_mul_le_self n b
      · have hmod : n % b < b := Nat.mod_lt _ hb0
        have hsplit : n = b * (n / b) + n % b := (Nat.div_add_mod n b).symm
        have hstep : n < (n / b + 1) * b := by
          calc n = b * (n / b) + n % b := hsplit
            _ < b * (n / b) + b := by omega
            _ = (n / b + 1) * b := by ring
        calc n < (n / b + 1) * b := hstep
          _ ≤ b^(logFuel b f (n/b) + 1) * b := Nat.mul_le_mul_right b (by omega)
          _ = b^(logFuel b f (n/b) + 1 + 1) := by rw [← pow_succ]

lemma natLog_bracket {b n : ℕ} (hb : 2 ≤ b) (hn : 1 ≤ n) :
    b^(natLog b n) ≤ n ∧ n < b^(natLog b n + 1) := by
  have h2 : n < b^n := by
    calc n < 2^n := Nat.lt_two_pow n
      _ ≤ b^n := Nat.pow_le_pow_left hb n
  exact logFuel_bracket hb n n hn h2

lemma flogB_def (b : ℕ) (a : ℚ) :
    flogB b a =
      if (b:ℚ)^((natLog b a.num.toNat : ℤ) - (natLog b a.den : ℤ)) ≤ a
      then (natLog b a.num.toNat : ℤ) - (natLog b a.den : ℤ)
      else (natLog b a.num.toNat : ℤ) - (natLog b a.den : ℤ) - 1 := by
  simp only [flogB, zp_eq]

lemma flogB_bracket {b : ℕ} {a : ℚ} (hb : 2 ≤ b) (ha : 0 < a) :
    (b : ℚ)^(flogB b a) ≤ a ∧ a < (b : ℚ)^(flogB b a + 1) := by
  have hbq : (1:ℚ) < (b:ℚ) := by exact_mod_cast by omega
  have hbq0 : (0:ℚ) < (b:ℚ) := by linarith
  have hnum : 0 < a.num := Rat.num_pos.2 ha
  have hN1 : 1 ≤ a.num.toNat := by omega
  have hD1 : 1 ≤ a.den := a.pos
  obtain ⟨hNl, hNr⟩ := natLog_bracket hb hN1
  obtain ⟨hDl, hDr⟩ := natLog_bracket hb hD1
  have hcast : ((a.num.toNat : ℕ) : ℚ) = ((a.num : ℤ) : ℚ) := by
    exact_mod_cast congrArg (fun z : ℤ => (z : ℚ)) (Int.toNat_of_nonneg (le_of_lt hnum))
  have haval : a = (a.num.toNat : ℚ) / (a.den : ℚ) := by
    rw [hcast]
    exact (Rat.num_div_den a).symm
  have hden0 : (0:ℚ) < (a.den : ℚ) := by exact_mod_cast hD1
  have hNlq : ((b:ℚ))^((natLog b a.num.toNat : ℕ) : ℤ) ≤ (a.num.toNat : ℚ) := by
    rw [zpow_natCast]
    exact_mod_cast hNl
  have hNrq : (a.num.toNat : ℚ) < ((b:ℚ))^(((natLog b a.num.toNat : ℕ) : ℤ) + 1) := by
    rw [show ((natLog b a.num.toNat : ℕ) : ℤ) + 1 = ((natLog b a.num.toNat + 1 : ℕ) : ℤ) by
      push_cast
      ring]
    rw [zpow_natCast]
    exact_mod_cast hNr
  have hDlq : ((b:ℚ))^((natLog b a.den : ℕ) : ℤ) ≤ (a.den : ℚ) := by
    rw [zpow_natCast]
    exact_mod_cast hDl
  have hDrq : (a.den : ℚ) < ((b:ℚ))^(((natLog b a.den : ℕ) : ℤ) + 1) := by
    rw [show ((natLog b a.den : ℕ) : ℤ) + 1 = ((natLog b a.den + 1 : ℕ) : ℤ) by
      push_cast
      ring]
    rw [zpow_natCast]
    exact_mod_cast hDr
  have hzp : ∀ k : ℤ, (0:ℚ) < (b:ℚ)^k := fun k => zpow_pos hbq0 k
  have hlow : (b:ℚ)^((natLog b a.num.toNat : ℤ) - (natLog b a.den : ℤ) - 1) < a := by
    conv_rhs => rw [haval]
    rw [lt_div_iff₀ hden0]
    calc (b:ℚ)^((natLog b a.num.toNat : ℤ) - (natLog b a.den : ℤ) - 1) * (a.den : ℚ)
        < (b:ℚ)^((natLog b a.num.toNat : ℤ) - (natLog b a.den : ℤ) - 1) *
            ((b:ℚ))^(((natLog b a.den : ℕ) : ℤ) + 1) :=
          mul_lt_mul_of_pos_left hDrq (hzp _)
      _ = (b:ℚ)^((natLog b a.num.toNat : ℕ) : ℤ) := by
                rw [← zpow_add₀ (ne_of_gt hbq0)]
                congr 1
                ring
      _ ≤ (a.num.toNat : ℚ) := hNlq
  have hhigh : a < (b:ℚ)^((natLog b a.num.toNat : ℤ) - (natLog b a.den : ℤ) + 1) := by
    conv_lhs => rw [haval]
    rw [div_lt_iff₀ hden0]
    calc (a.num.toNat : ℚ) < ((b:ℚ))^(((natLog b a.num.toNat : ℕ) : ℤ) + 1) := hNrq
      _ = (b:ℚ)^((natLog b a.num.toNat : ℤ) - (natLog b a.den : ℤ) + 1) *
            ((b:ℚ))^((natLog b a.den : ℕ) : ℤ) := by
          rw [← zpow_add₀ (ne_of_gt hbq0)]
          congr 1
          ring
      _ ≤ (b:ℚ)^((natLog b a.num.toNat : ℤ) - (natLog b a.den : ℤ) + 1) * (a.den : ℚ) :=
          mul_le_mul_of_nonneg_left hDlq (le_of_lt (hzp _))
  rw [flogB_def]
  by_cases hcase : (b : ℚ)^((natLog b a.num.toNat : ℤ) - (natLog b a.den : ℤ)) ≤ a
  · rw [if_pos hcase]
    exact ⟨hcase, hhigh⟩
  · rw [if_neg hcase]
    constructor
    · exact le_of_lt hlow
    · have heq : (natLog b a.num.toNat : ℤ) - (natLog b a.den : ℤ) - 1 + 1 =
          (natLog b a.num.toNat : ℤ) - (natLog b a.den : ℤ) := by ring
      rw [heq]
      exact lt_of_not_le hcase

lemma zpow_lt_zpow_int {b : ℚ} (hb : 1 < b) {e1 e2 : ℤ} (h : e1 < e2) :
    b^e1 < b^e2 :=
  zpow_lt_zpow_right₀ hb h

lemma flogB_unique {b : ℕ} {a : ℚ} {e : ℤ} (hb : 2 ≤ b) (ha : 0 < a)
    (h1 : (b : ℚ)^e ≤ a) (h2 : a < (b : ℚ)^(e+1)) : flogB b a = e := by
  have hbq : (1:ℚ) < (b:ℚ) := by exact_mod_cast by omega
  obtain ⟨hl, hr⟩ := flogB_bracket hb ha
  by_contra hne
  rcases lt_or_gt_of_ne hne with hlt | hgt
  · have : flogB b a + 1 ≤ e := by omega
    have : (b:ℚ)^(flogB b a + 1) ≤ (b:ℚ)^e := by
      rcases eq_or_lt_of_le this with heq | hlt2
      · rw [heq]
      · exact le_of_lt (zpow_lt_zpow_int hbq hlt2)
    linarith
  · have : e + 1 ≤ flogB b a := by omega
    have : (b:ℚ)^(e+1) ≤ (b:ℚ)^(flogB b a) := by
      rcases eq_or_lt_of_le this with heq | hlt2
      · rw [heq]
      · exact le_of_lt (zpow_lt_zpow_int hbq hlt2)
    linarith

/-! ## Round half to even -/

lemma rhe_cases (q : ℚ) : rhe q = ⌊q⌋ ∨ rhe q = ⌊q⌋ + 1 := by
  unfold rhe
  by_cases c1 : q - (⌊q⌋ : ℚ) < 1/2
  · rw [if_pos c1]
    left
    rfl
  · rw [if_neg c1]
    by_cases c2 : 1/2 < q - (⌊q⌋ : ℚ)
    · rw [if_pos c2]
      right
      rfl
    · rw [if_neg c2]
      by_cases c3 : ⌊q⌋ % 2 = 0
      · rw [if_pos c3]
        left
        rfl
      · rw [if_neg c3]
        right
        rfl

lemma rhe_eq_floor_of_lt {q : ℚ} (h : q - (⌊q⌋ : ℚ) < 1/2) : rhe q = ⌊q⌋ := by
  unfold rhe
  rw [if_pos h]

lemma rhe_eq_succ_of_gt {q : ℚ} (h : 1/2 < q - (⌊q⌋ : ℚ)) : rhe q = ⌊q⌋ + 1 := by
  unfold rhe
  rw [if_neg (by linarith), if_pos h]

lemma rhe_ge (q : ℚ) : q - 1/2 ≤ (rhe q : ℚ) := by
  have h1 : (⌊q⌋ : ℚ) ≤ q := Int.floor_le q
  have h2 : q < ⌊q⌋ + 1 := Int.lt_floor_add_one q
  rcases rhe_cases q with h | h <;> rw [h] <;> push_cast
  · by_cases c1 : q - (⌊q⌋ : ℚ) < 1/2
    · linarith
    · by_cases c2 : 1/2 < q - (⌊q⌋ : ℚ)
      · exfalso
        rw [rhe_eq_succ_of_gt c2] at h
        omega
      · linarith
  · linarith

lemma rhe_le (q : ℚ) : (rhe q : ℚ) ≤ q + 1/2 := by
  have h1 : (⌊q⌋ : ℚ) ≤ q := Int.floor_le q
  have h2 : q < ⌊q⌋ + 1 := Int.lt_floor_add_one q
  rcases rhe_cases q with h | h <;> rw [h] <;> push_cast
  · linarith
  · by_cases c1 : q - (⌊q⌋ : ℚ) < 1/2
    · exfalso
      rw [rhe_eq_floor_of_lt c1] at h
      omega
    · linarith

lemma rhe_int (n : ℤ) : rhe (n : ℚ) = n := by
  have : ((n:ℚ)) - ((⌊(n:ℚ)⌋ : ℤ) : ℚ) < 1/2 := by
    rw [Int.floor_intCast]
    simp
  rw [rhe_eq_floor_of_lt this, Int.floor_intCast]

lemma rhe_close {q : ℚ} {n : ℤ} (h : |q - (n : ℚ)| < 1/2) : rhe q = n := by
  rw [abs_lt] at h
  obtain ⟨hl, hr⟩ := h
  by_cases hq : (n : ℚ) ≤ q
  · have hfl : ⌊q⌋ = n := by
      rw [Int.floor_eq_iff]
      constructor
      · exact hq
      · push_cast
        linarith
    rw [rhe_eq_floor_of_lt (by rw [hfl]; linarith), hfl]
  · push_neg at hq
    have hfl : ⌊q⌋ = n - 1 := by
      rw [Int.floor_eq_iff]
      constructor
      · push_cast
        linarith
      · push_cast
        linarith
    rw [rhe_eq_succ_of_gt (by rw [hfl]; push_cast; linarith), hfl]
    omega

lemma floor_le_rhe (q : ℚ) : ⌊q⌋ ≤ rhe q := by
  rcases rhe_cases q with h | h <;> omega

lemma rhe_le_floor_add_one (q : ℚ) : rhe q ≤ ⌊q⌋ + 1 := by
  rcases rhe_cases q with h | h <;> omega

lemma rhe_mono {q q' : ℚ} (h : q ≤ q') : rhe q ≤ rhe q' := by
  have hf : ⌊q⌋ ≤ ⌊q'⌋ := Int.floor_le_floor h
  rcases lt_or_eq_of_le hf with hlt | heq
  · calc rhe q ≤ ⌊q⌋ + 1 := rhe_le_floor_add_one q
      _ ≤ ⌊q'⌋ := by omega
      _ ≤ rhe q' := floor_le_rhe q'
  · rcases eq_or_lt_of_le h with rfl | hqq
    · exact le_refl _
    · by_cases c1 : q' - (⌊q'⌋ : ℚ) < 1/2
      · have c1q : q - (⌊q⌋ : ℚ) < 1/2 := by
          rw [heq]
          linarith
        rw [rhe_eq_floor_of_lt c1, rhe_eq_floor_of_lt c1q]
        omega
      · have c2 : 1/2 ≤ q' - (⌊q'⌋ : ℚ) := by linarith
        have hub : rhe q ≤ ⌊q⌋ + 1 := rhe_le_floor_add_one q
        by_cases c2s : 1/2 < q' - (⌊q'⌋ : ℚ)
        · rw [rhe_eq_succ_of_gt c2s]
          omega
        · -- q' sits exactly on the tie; q ≤ q' with equal floors
          have hq' : q' - (⌊q'⌋ : ℚ) = 1/2 := by linarith
          have c1q : q - (⌊q⌋ : ℚ) < 1/2 := by
            rw [heq]
            linarith
          rw [rhe_eq_floor_of_lt c1q]
          calc ⌊q⌋ = ⌊q'⌋ := heq
            _ ≤ rhe q' := floor_le_rhe q'

lemma rhe_nonneg {q : ℚ} (h : 0 ≤ q) : 0 ≤ rhe q := by
  calc (0 : ℤ) ≤ ⌊q⌋ := Int.floor_nonneg.2 h
    _ ≤ rhe q := floor_le_rhe q

/-! ## Facts about `roundPos` and `roundDouble` -/

lemma two_zpow_pos (k : ℤ) : (0:ℚ) < (2:ℚ)^k := zpow_pos (by norm_num) k

lemma ten_zpow_pos (k : ℤ) : (0:ℚ) < (10:ℚ)^k := zpow_pos (by norm_num) k

lemma two_zpow_mul (i j : ℤ) : (2:ℚ)^i * (2:ℚ)^j = (2:ℚ)^(i+j) :=
  (zpow_add₀ (by norm_num) i j).symm

lemma ten_zpow_mul (i j : ℤ) : (10:ℚ)^i * (10:ℚ)^j = (10:ℚ)^(i+j) :=
  (zpow_add₀ (by norm_num) i j).symm

lemma zpow_le_zpow_int {b : ℚ} (hb : 1 < b) {e1 e2 : ℤ} (h : e1 ≤ e2) :
    b^e1 ≤ b^e2 := by
  rcases eq_or_lt_of_le h with rfl | hlt
  · exact le_refl _
  · exact le_of_lt (zpow_lt_zpow_int hb hlt)

lemma flog2_bracket {a : ℚ} (ha : 0 < a) :
    (2:ℚ)^(flogB 2 a) ≤ a ∧ a < (2:ℚ)^(flogB 2 a + 1) := by
  have h := flogB_bracket (b := 2) (by norm_num) ha
  simpa using h

lemma flog10_bracket {a : ℚ} (ha : 0 < a) :
    (10:ℚ)^(flogB 10 a) ≤ a ∧ a < (10:ℚ)^(flogB 10 a + 1) := by
  have h := flogB_bracket (b := 10) (by norm_num) ha
  simpa using h

lemma flog2_unique {a : ℚ} {e : ℤ} (ha : 0 < a)
    (h1 : (2:ℚ)^e ≤ a) (h2 : a < (2:ℚ)^(e+1)) : flogB 2 a = e := by
  apply flogB_unique (b := 2) (by norm_num) ha
  · simpa using h1
  · simpa using h2

lemma flog10_unique {a : ℚ} {e : ℤ} (ha : 0 < a)
    (h1 : (10:ℚ)^e ≤ a) (h2 : a < (10:ℚ)^(e+1)) : flogB 10 a = e := by
  apply flogB_unique (b := 10) (by norm_num) ha
  · simpa using h1
  · simpa using h2

lemma roundPos_eq (a : ℚ) :
    roundPos a = (rhe (a * (2:ℚ)^(52 - flogB 2 a)) : ℚ) * (2:ℚ)^(flogB 2 a - 52) := by
  simp only [roundPos, zp_eq, Nat.cast_ofNat]

lemma roundPos_scaled_bracket {a : ℚ} (ha : 0 < a) :
    (2:ℚ)^(52:ℤ) ≤ a * (2:ℚ)^(52 - flogB 2 a) ∧
      a * (2:ℚ)^(52 - flogB 2 a) < (2:ℚ)^(53:ℤ) := by
  obtain ⟨hl, hr⟩ := flog2_bracket ha
  have hp := two_zpow_pos (52 - flogB 2 a)
  constructor
  · calc (2:ℚ)^(52:ℤ) = (2:ℚ)^(flogB 2 a) * (2:ℚ)^(52 - flogB 2 a) := by
                rw [two_zpow_mul]
                congr 1
                ring
            _ ≤ a * (2:ℚ)^(52 - flogB 2 a) :=
                mul_le_mul_of_nonneg_right hl (le_of_lt hp)
  · calc a * (2:ℚ)^(52 - flogB 2 a) < (2:ℚ)^(flogB 2 a + 1) * (2:ℚ)^(52 - flogB 2 a) :=
          mul_lt_mul_of_pos_right hr hp
      _ = (2:ℚ)^(53:ℤ) := by
                rw [two_zpow_mul]
                congr 1
                ring

lemma roundPos_m_bounds {a : ℚ} (ha : 0 < a) :
    (2^52 : ℤ) ≤ rhe (a * (2:ℚ)^(52 - flogB 2 a)) ∧
      rhe (a * (2:ℚ)^(52 - flogB 2 a)) ≤ 2^53 := by
  obtain ⟨hl, hr⟩ := roundPos_scaled_bracket ha
  have hge := rhe_ge (a * (2:ℚ)^(52 - flogB 2 a))
  have hle := rhe_le (a * (2:ℚ)^(52 - flogB 2 a))
  constructor
  · have hq : ((2^52 - 1 : ℤ) : ℚ) < (rhe (a * (2:ℚ)^(52 - flogB 2 a)) : ℚ) := by
      have h52 : ((2:ℚ))^(52:ℤ) = ((2^52 : ℤ) : ℚ) := by norm_num
      push_cast
      push_cast at h52
      linarith
    have hz : (2^52 - 1 : ℤ) < rhe (a * (2:ℚ)^(52 - flogB 2 a)) := by exact_mod_cast hq
    omega
  · have hq : (rhe (a * (2:ℚ)^(52 - flogB 2 a)) : ℚ) < ((2^53 + 1 : ℤ) : ℚ) := by
      have h53 : ((2:ℚ))^(53:ℤ) = ((2^53 : ℤ) : ℚ) := by norm_num
      push_cast
      push_cast at h53
      linarith
    have hz : rhe (a * (2:ℚ)^(52 - flogB 2 a)) < (2^53 + 1 : ℤ) := by exact_mod_cast hq
    omega

lemma roundPos_pos {a : ℚ} (ha : 0 < a) : 0 < roundPos a := by
  rw [roundPos_eq]
  obtain ⟨hm, _⟩ := roundPos_m_bounds ha
  have h1 : (0:ℚ) < (rhe (a * (2:ℚ)^(52 - flogB 2 a)) : ℚ) := by
    exact_mod_cast lt_of_lt_of_le (by norm_num : (0:ℤ) < 2^52) hm
  exact mul_pos h1 (two_zpow_pos _)

lemma roundPos_err {a : ℚ} (ha : 0 < a) :
    |roundPos a - a| ≤ (2:ℚ)^(flogB 2 a - 53) := by
  have hsc : a * (2:ℚ)^(52 - flogB 2 a) * (2:ℚ)^(flogB 2 a - 52) = a := by
    rw [mul_assoc, two_zpow_mul]
    norm_num
  have key : roundPos a - a =
      ((rhe (a * (2:ℚ)^(52 - flogB 2 a)) : ℚ) - a * (2:ℚ)^(52 - flogB 2 a)) *
        (2:ℚ)^(flogB 2 a - 52) := by
    rw [roundPos_eq, sub_mul, hsc]
  rw [key, abs_mul, abs_of_pos (two_zpow_pos _)]
  have herr : |(rhe (a * (2:ℚ)^(52 - flogB 2 a)) : ℚ) - a * (2:ℚ)^(52 - flogB 2 a)| ≤ 1/2 := by
    rw [abs_le]
    have hge := rhe_ge (a * (2:ℚ)^(52 - flogB 2 a))
    have hle := rhe_le (a * (2:ℚ)^(52 - flogB 2 a))
    constructor <;> linarith
  calc |(rhe (a * (2:ℚ)^(52 - flogB 2 a)) : ℚ) - a * (2:ℚ)^(52 - flogB 2 a)| *
        (2:ℚ)^(flogB 2 a - 52)
      ≤ (1/2) * (2:ℚ)^(flogB 2 a - 52) := by
        exact mul_le_mul_of_nonneg_right herr (le_of_lt (two_zpow_pos _))
    _ = (2:ℚ)^(flogB 2 a - 53) := by
              have : (1/2 : ℚ) = (2:ℚ)^(-1 : ℤ) := by norm_num
              rw [this, mul_comm, two_zpow_mul]
              congr 1
              ring

lemma IsNormal_flog {x : ℚ} {m c : ℤ} (hm1 : 2^52 ≤ m) (hm2 : m < 2^53)
    (hx : x = (m : ℚ) * (2:ℚ)^c) : flogB 2 x = c + 52 := by
  have hx0 : 0 < x := by
    rw [hx]
    have : (0:ℚ) < (m:ℚ) := by exact_mod_cast lt_of_lt_of_le (by norm_num) hm1
    exact mul_pos this (two_zpow_pos c)
  apply flog2_unique hx0
  · rw [hx]
    calc (2:ℚ)^(c + 52) = (2:ℚ)^(52:ℤ) * (2:ℚ)^c := by
                rw [two_zpow_mul]
                congr 1
                ring
              _ ≤ (m:ℚ) * (2:ℚ)^c := by
                apply mul_le_mul_of_nonneg_right _ (le_of_lt (two_zpow_pos c))
                calc (2:ℚ)^(52:ℤ) = ((2^52 : ℤ) : ℚ) := by norm_num
                  _ ≤ (m:ℚ) := by exact_mod_cast hm1
  · rw [hx]
    calc (m:ℚ) * (2:ℚ)^c < (2:ℚ)^(53:ℤ) * (2:ℚ)^c := by
                apply mul_lt_mul_of_pos_right _ (two_zpow_pos c)
                calc (m:ℚ) < ((2^53 : ℤ) : ℚ) := by exact_mod_cast hm2
                  _ = (2:ℚ)^(53:ℤ) := by norm_num
              _ = (2:ℚ)^(c + 52 + 1) := by
                rw [two_zpow_mul]
                congr 1
                ring

lemma roundPos_fix {a : ℚ} (h : IsNormal a) : roundPos a = a := by
  obtain ⟨m, c, hm1, hm2, hx⟩ := h
  have hflog : flogB 2 a = c + 52 := IsNormal_flog hm1 hm2 hx
  rw [roundPos_eq, hflog, hx]
  have hsc : (m : ℚ) * (2:ℚ)^c * (2:ℚ)^(52 - (c + 52)) = (m : ℚ) := by
    rw [mul_assoc, two_zpow_mul]
    norm_num
  rw [hsc, rhe_int]
  rw [show c + 52 - 52 = c by ring]

lemma flogB_mono_two {a a' : ℚ} (ha : 0 < a) (h : a ≤ a') :
    flogB 2 a ≤ flogB 2 a' := by
  have ha' : 0 < a' := lt_of_lt_of_le ha h
  obtain ⟨hl, hr⟩ := flog2_bracket ha
  obtain ⟨hl', hr'⟩ := flog2_bracket ha'
  by_contra hgt
  push_neg at hgt
  have : flogB 2 a' + 1 ≤ flogB 2 a := by omega
  have h2 : (2:ℚ)^(flogB 2 a' + 1) ≤ (2:ℚ)^(flogB 2 a) :=
    zpow_le_zpow_int (by norm_num) this
  linarith

lemma roundPos_mono {a a' : ℚ} (ha : 0 < a) (h : a ≤ a') :
    roundPos a ≤ roundPos a' := by
  have ha' : 0 < a' := lt_of_lt_of_le ha h
  have hee : flogB 2 a ≤ flogB 2 a' := flogB_mono_two ha h
  rcases eq_or_lt_of_le hee with heq | hlt
  · rw [roundPos_eq, roundPos_eq, ← heq]
    have hsc : a * (2:ℚ)^(52 - flogB 2 a) ≤ a' * (2:ℚ)^(52 - flogB 2 a) :=
      mul_le_mul_of_nonneg_right h (le_of_lt (two_zpow_pos _))
    have hm : (rhe (a * (2:ℚ)^(52 - flogB 2 a)) : ℚ) ≤
        (rhe (a' * (2:ℚ)^(52 - flogB 2 a)) : ℚ) := by
      exact_mod_cast rhe_mono hsc
    exact mul_le_mul_of_nonneg_right hm (le_of_lt (two_zpow_pos _))
  · obtain ⟨hm1, hm2⟩ := roundPos_m_bounds ha
    obtain ⟨hm1', hm2'⟩ := roundPos_m_bounds ha'
    have step1 : roundPos a ≤ (2:ℚ)^(flogB 2 a + 1) := by
      rw [roundPos_eq]
      calc (rhe (a * (2:ℚ)^(52 - flogB 2 a)) : ℚ) * (2:ℚ)^(flogB 2 a - 52)
          ≤ ((2^53 : ℤ) : ℚ) * (2:ℚ)^(flogB 2 a - 52) := by
            exact mul_le_mul_of_nonneg_right (by exact_mod_cast hm2)
              (le_of_lt (two_zpow_pos _))
        _ = (2:ℚ)^(flogB 2 a + 1) := by
                  have : ((2^53 : ℤ) : ℚ) = (2:ℚ)^(53:ℤ) := by norm_num
                  rw [this, two_zpow_mul]
                  congr 1
                  ring
    have step2 : (2:ℚ)^(flogB 2 a + 1) ≤ (2:ℚ)^(flogB 2 a') :=
      zpow_le_zpow_int (by norm_num) (by omega)
    have step3 : (2:ℚ)^(flogB 2 a') ≤ roundPos a' := by
      rw [roundPos_eq]
      calc (2:ℚ)^(flogB 2 a') = (2:ℚ)^(52:ℤ) * (2:ℚ)^(flogB 2 a' - 52) := by
                  rw [two_zpow_mul]
                  congr 1
                  ring
                _ ≤ (rhe (a' * (2:ℚ)^(52 - flogB 2 a')) : ℚ) * (2:ℚ)^(flogB 2 a' - 52) := by
                  apply mul_le_mul_of_nonneg_right _ (le_of_lt (two_zpow_pos _))
                  calc (2:ℚ)^(52:ℤ) = ((2^52 : ℤ) : ℚ) := by norm_num
                    _ ≤ _ := by exact_mod_cast hm1'
    linarith

lemma roundPos_norm {a : ℚ} (ha : 0 < a) : IsNormal (roundPos a) := by
  obtain ⟨hm1, hm2⟩ := roundPos_m_bounds ha
  rcases eq_or_lt_of_le hm2 with heq | hlt
  · refine ⟨2^52, flogB 2 a - 51, by norm_num, by norm_num, ?_⟩
    rw [roundPos_eq, heq]
    have hlit : ((2^53 : ℤ) : ℚ) = ((2^52 : ℤ) : ℚ) * (2:ℚ)^(1:ℤ) := by norm_num
    rw [hlit, mul_assoc, two_zpow_mul]
    congr 1
    congr 1
    ring
  · exact ⟨rhe (a * (2:ℚ)^(52 - flogB 2 a)), flogB 2 a - 52, hm1, hlt, roundPos_eq a⟩

lemma roundPos_le_one {a : ℚ} (ha : 0 < a) (h1 : a ≤ 1) : roundPos a ≤ 1 := by
  rcases eq_or_lt_of_le h1 with heq | hlt
  · rw [heq]
    have : IsNormal 1 := ⟨2^52, -52, by norm_num, by norm_num, by norm_num⟩
    rw [roundPos_fix this]
  · obtain ⟨hl, hr⟩ := flog2_bracket ha
    have he : flogB 2 a ≤ -1 := by
      by_contra hc
      push_neg at hc
      have h0 : (0:ℤ) ≤ flogB 2 a := by omega
      have : (1:ℚ) ≤ (2:ℚ)^(flogB 2 a) := by
        calc (1:ℚ) = (2:ℚ)^(0:ℤ) := by norm_num
          _ ≤ (2:ℚ)^(flogB 2 a) := zpow_le_zpow_int (by norm_num) h0
      linarith
    obtain ⟨_, hm2⟩ := roundPos_m_bounds ha
    rw [roundPos_eq]
    calc (rhe (a * (2:ℚ)^(52 - flogB 2 a)) : ℚ) * (2:ℚ)^(flogB 2 a - 52)
        ≤ ((2^53 : ℤ) : ℚ) * (2:ℚ)^(flogB 2 a - 52) :=
          mul_le_mul_of_nonneg_right (by exact_mod_cast hm2) (le_of_lt (two_zpow_pos _))
      _ ≤ ((2^53 : ℤ) : ℚ) * (2:ℚ)^(-53 : ℤ) := by
                apply mul_le_mul_of_nonneg_left (zpow_le_zpow_int (by norm_num) (by omega))
                norm_num
      _ = 1 := by norm_num

lemma roundPos_nearest {m c : ℤ} (hm1 : 2^52 ≤ m) (hm2 : m < 2^53) {v : ℚ}
    (hv : 0 < v)
    (hclose : |v - (m:ℚ) * (2:ℚ)^c| * (2:ℚ)^(54:ℤ) < (m:ℚ) * (2:ℚ)^c) :
    roundPos v = (m:ℚ) * (2:ℚ)^c := by
  have hmq1 : ((2:ℚ))^(52:ℤ) ≤ (m:ℚ) := by
    calc (2:ℚ)^(52:ℤ) = ((2^52 : ℤ) : ℚ) := by norm_num
      _ ≤ (m:ℚ) := by exact_mod_cast hm1
  have hmq2 : (m:ℚ) ≤ (2:ℚ)^(53:ℤ) - 1 := by
    calc (m:ℚ) ≤ ((2^53 - 1 : ℤ) : ℚ) := by exact_mod_cast (by omega : m ≤ 2^53 - 1)
      _ = (2:ℚ)^(53:ℤ) - 1 := by norm_num
  have hxlow : (2:ℚ)^(c+52) ≤ (m:ℚ) * (2:ℚ)^c := by
    calc (2:ℚ)^(c+52) = (2:ℚ)^(52:ℤ) * (2:ℚ)^c := by
          rw [two_zpow_mul]
          congr 1
          ring
      _ ≤ (m:ℚ) * (2:ℚ)^c := mul_le_mul_of_nonneg_right hmq1 (le_of_lt (two_zpow_pos c))
  have hxhigh : (m:ℚ) * (2:ℚ)^c ≤ (2:ℚ)^(c+53) - (2:ℚ)^c := by
    calc (m:ℚ) * (2:ℚ)^c ≤ ((2:ℚ)^(53:ℤ) - 1) * (2:ℚ)^c :=
          mul_le_mul_of_nonneg_right hmq2 (le_of_lt (two_zpow_pos c))
      _ = (2:ℚ)^(c+53) - (2:ℚ)^c := by
          rw [sub_mul, one_mul, two_zpow_mul]
          congr 2
          ring
  -- coarse error bound: |v - x| < 2^(c-1)
  have herr : |v - (m:ℚ) * (2:ℚ)^c| < (2:ℚ)^(c-1) := by
    have h54 : (2:ℚ)^(c+53) = (2:ℚ)^(c-1) * (2:ℚ)^(54:ℤ) := by
      rw [two_zpow_mul]
      congr 1
      ring
    have hp54 : (0:ℚ) < (2:ℚ)^(54:ℤ) := two_zpow_pos _
    have hcp : (0:ℚ) < (2:ℚ)^c := two_zpow_pos c
    nlinarith [abs_nonneg (v - (m:ℚ) * (2:ℚ)^c)]
  rw [abs_lt] at herr
  obtain ⟨hcl, hcr⟩ := herr
  have hvlow : (2:ℚ)^(c+51) < v := by
    have t1 : (2:ℚ)^(c-1) ≤ (2:ℚ)^(c+51) := zpow_le_zpow_int (by norm_num) (by omega)
    have t2 : (2:ℚ)^(c+51) + (2:ℚ)^(c+51) = (2:ℚ)^(c+52) := by
      have e1 : (2:ℚ)^(c+52) = (2:ℚ)^(1:ℤ) * (2:ℚ)^(c+51) := by
        rw [two_zpow_mul]
        congr 1
        ring
      rw [e1, show ((2:ℚ)^(1:ℤ)) = 2 by norm_num]
      ring
    linarith
  have hvhigh : v < (2:ℚ)^(c+53) := by
    have t1 : (2:ℚ)^(c-1) ≤ (2:ℚ)^c := zpow_le_zpow_int (by norm_num) (by omega)
    linarith
  have hev : flogB 2 v = c + 51 ∨ flogB 2 v = c + 52 := by
    obtain ⟨hvl, hvr⟩ := flog2_bracket hv
    have hlo : c + 51 ≤ flogB 2 v := by
      by_contra hcon
      push_neg at hcon
      have hstep : flogB 2 v + 1 ≤ c + 51 := by omega
      have : (2:ℚ)^(flogB 2 v + 1) ≤ (2:ℚ)^(c+51) := zpow_le_zpow_int (by norm_num) hstep
      linarith
    have hhi : flogB 2 v ≤ c + 52 := by
      by_contra hcon
      push_neg at hcon
      have hstep : c + 53 ≤ flogB 2 v := by omega
      have : (2:ℚ)^(c+53) ≤ (2:ℚ)^(flogB 2 v) := zpow_le_zpow_int (by norm_num) hstep
      linarith
    omega
  rcases hev with he | he
  · -- lower binade: v < x, and this forces m = 2^52
    have hvx : v < (2:ℚ)^(c+52) := by
      obtain ⟨hvl, hvr⟩ := flog2_bracket hv
      rw [he] at hvr
      calc v < (2:ℚ)^(c+51+1) := hvr
        _ = (2:ℚ)^(c+52) := by
            congr 1
            ring
    have hm52 : m = 2^52 := by
      by_contra hne
      have hm1' : 2^52 + 1 ≤ m := by omega
      have hxlow2 : (2:ℚ)^(c+52) + (2:ℚ)^c ≤ (m:ℚ) * (2:ℚ)^c := by
        calc (2:ℚ)^(c+52) + (2:ℚ)^c = ((2:ℚ)^(52:ℤ) + 1) * (2:ℚ)^c := by
              rw [add_mul, one_mul, two_zpow_mul]
              congr 2
              ring
          _ ≤ (m:ℚ) * (2:ℚ)^c := by
              apply mul_le_mul_of_nonneg_right _ (le_of_lt (two_zpow_pos c))
              calc (2:ℚ)^(52:ℤ) + 1 = ((2^52 + 1 : ℤ) : ℚ) := by norm_num
                _ ≤ (m:ℚ) := by exact_mod_cast hm1'
      -- from the relative error bound, v > x (1 - 2^-54) > 2^(c+52), contradiction
      have hvgt : v * (2:ℚ)^(54:ℤ) > (m:ℚ) * (2:ℚ)^c * ((2:ℚ)^(54:ℤ) - 1) := by
        have habs : (m:ℚ) * (2:ℚ)^c - v ≤ |v - (m:ℚ) * (2:ℚ)^c| := by
          rw [abs_sub_comm]
          exact le_abs_self _
        have hp54 : (0:ℚ) < (2:ℚ)^(54:ℤ) := two_zpow_pos _
        nlinarith
      have hc52 : (2:ℚ)^(c+52) * (2:ℚ)^(54:ℤ) = (2:ℚ)^(c+52) + (2:ℚ)^(c+52) * ((2:ℚ)^(54:ℤ) - 1) := by
        ring
      have hcc : (2:ℚ)^c * ((2:ℚ)^(54:ℤ) - 1) > (2:ℚ)^(c+52) := by
        have e1 : (2:ℚ)^c * (2:ℚ)^(54:ℤ) = (2:ℚ)^(c+54) := two_zpow_mul _ _
        have e2 : (2:ℚ)^(c+54) = (2:ℚ)^(c+52) * 4 := by
          rw [show (4:ℚ) = (2:ℚ)^(2:ℤ) by norm_num, two_zpow_mul]
          congr 1
          ring
        have e3 : (2:ℚ)^c ≤ (2:ℚ)^(c+52) := zpow_le_zpow_int (by norm_num) (by omega)
        have e4 : (0:ℚ) < (2:ℚ)^(c+52) := two_zpow_pos _
        nlinarith
      have hp54 : (0:ℚ) < (2:ℚ)^(54:ℤ) := two_zpow_pos _
      nlinarith [mul_lt_mul_of_pos_right hvx hp54]
    subst hm52
    have hxval : ((2^52 : ℤ) : ℚ) * (2:ℚ)^c = (2:ℚ)^(c+52) := by
      rw [show ((2^52 : ℤ) : ℚ) = (2:ℚ)^(52:ℤ) by norm_num, two_zpow_mul]
      congr 1
      ring
    -- sharp error bound in this case: |v - x| < 2^(c-2)
    have herr2 : |v - (2:ℚ)^(c+52)| < (2:ℚ)^(c-2) := by
      rw [hxval] at hclose
      have h54 : (2:ℚ)^(c+52) = (2:ℚ)^(c-2) * (2:ℚ)^(54:ℤ) := by
        rw [two_zpow_mul]
        congr 1
        ring
      have hp54 : (0:ℚ) < (2:ℚ)^(54:ℤ) := two_zpow_pos _
      nlinarith
    rw [abs_lt] at herr2
    obtain ⟨hc2l, hc2r⟩ := herr2
    rw [roundPos_eq, he]
    have hscaled : rhe (v * (2:ℚ)^(52 - (c + 51))) = 2^53 := by
      apply rhe_close
      rw [abs_lt]
      have hexp : (2:ℚ)^(52 - (c+51)) = (2:ℚ)^(1 - c) := by
        congr 1
        ring
      rw [hexp]
      have hps : (0:ℚ) < (2:ℚ)^(1-c) := two_zpow_pos _
      have hkey : (2:ℚ)^(c+52) * (2:ℚ)^(1-c) = ((2^53 : ℤ) : ℚ) := by
        rw [two_zpow_mul]
        rw [show c + 52 + (1 - c) = (53:ℤ) by ring]
        norm_num
      have hd : (2:ℚ)^(c-2) * (2:ℚ)^(1-c) = 1/2 := by
        rw [two_zpow_mul]
        rw [show c - 2 + (1 - c) = (-1:ℤ) by ring]
        norm_num
      constructor
      · have := mul_lt_mul_of_pos_right (by linarith : (2:ℚ)^(c+52) - (2:ℚ)^(c-2) < v) hps
        rw [sub_mul, hkey, hd] at this
        linarith
      · have := mul_lt_mul_of_pos_right
          (by linarith : v < (2:ℚ)^(c+52) + (2:ℚ)^(c-2)) hps
        rw [add_mul, hkey, hd] at this
        linarith
    rw [hscaled, hxval]
    have hlit : ((2^53 : ℤ) : ℚ) = (2:ℚ)^(53:ℤ) := by norm_num
    rw [hlit, two_zpow_mul]
    congr 1
    ring
  · rw [roundPos_eq, he]
    have hscaled : rhe (v * (2:ℚ)^(52 - (c + 52))) = m := by
      apply rhe_close
      rw [abs_lt]
      have hexp : (2:ℚ)^(52 - (c+52)) = (2:ℚ)^(-c : ℤ) := by
        congr 1
        ring
      rw [hexp]
      have hps : (0:ℚ) < (2:ℚ)^(-c : ℤ) := two_zpow_pos _
      have hkey : (m:ℚ) * (2:ℚ)^c * (2:ℚ)^(-c : ℤ) = (m:ℚ) := by
        rw [mul_assoc, two_zpow_mul]
        rw [show c + -c = (0:ℤ) by ring]
        norm_num
      have hd : (2:ℚ)^(c-1) * (2:ℚ)^(-c : ℤ) = 1/2 := by
        rw [two_zpow_mul]
        rw [show c - 1 + -c = (-1:ℤ) by ring]
        norm_num
      constructor
      · have := mul_lt_mul_of_pos_right
          (by linarith : (m:ℚ) * (2:ℚ)^c - (2:ℚ)^(c-1) < v) hps
        rw [sub_mul, hkey, hd] at this
        linarith
      · have := mul_lt_mul_of_pos_right
          (by linarith : v < (m:ℚ) * (2:ℚ)^c + (2:ℚ)^(c-1)) hps
        rw [add_mul, hkey, hd] at this
        linarith
    rw [hscaled]
    rw [show c + 52 - 52 = c by ring]

/-! ## Lifting to `roundDouble` -/

lemma roundDouble_zero : roundDouble 0 = 0 := by
  unfold roundDouble
  simp

lemma roundDouble_of_pos {q : ℚ} (h : 0 < q) : roundDouble q = roundPos q := by
  unfold roundDouble
  rw [if_neg (ne_of_gt h), if_neg (not_lt_of_gt h)]

lemma roundDouble_neg_eq (q : ℚ) : roundDouble (-q) = -roundDouble q := by
  unfold roundDouble
  rcases lt_trichotomy q 0 with hq | hq | hq
  · rw [if_neg (by exact_mod_cast ne_of_gt (by linarith : (0:ℚ) < -q)),
      if_neg (by linarith), if_neg (ne_of_lt hq), if_pos hq, neg_neg]
  · subst hq
    simp
  · rw [if_neg (by exact_mod_cast ne_of_lt (by linarith : -q < 0)),
      if_pos (by linarith), if_neg (ne_of_gt hq), if_neg (not_lt_of_gt hq), neg_neg]

lemma roundDouble_pos {q : ℚ} (h : 0 < q) : 0 < roundDouble q := by
  rw [roundDouble_of_pos h]
  exact roundPos_pos h

lemma roundDouble_nonneg {q : ℚ} (h : 0 ≤ q) : 0 ≤ roundDouble q := by
  rcases eq_or_lt_of_le h with rfl | hq
  · rw [roundDouble_zero]
  · exact le_of_lt (roundDouble_pos hq)

lemma roundDouble_mono {q q' : ℚ} (h : q ≤ q') : roundDouble q ≤ roundDouble q' := by
  rcases lt_trichotomy q 0 with hq | hq | hq
  · rcases lt_trichotomy q' 0 with hq' | hq' | hq'
    · have e1 : roundDouble q = -roundPos (-q) := by
        unfold roundDouble
        rw [if_neg (ne_of_lt hq), if_pos hq]
      have e2 : roundDouble q' = -roundPos (-q') := by
        unfold roundDouble
        rw [if_neg (ne_of_lt hq'), if_pos hq']
      rw [e1, e2, neg_le_neg_iff]
      exact roundPos_mono (by linarith) (by linarith)
    · subst hq'
      rw [roundDouble_zero]
      have e1 : roundDouble q = -roundPos (-q) := by
        unfold roundDouble
        rw [if_neg (ne_of_lt hq), if_pos hq]
      rw [e1]
      have := roundPos_pos (by linarith : (0:ℚ) < -q)
      linarith
    · have e1 : roundDouble q = -roundPos (-q) := by
        unfold roundDouble
        rw [if_neg (ne_of_lt hq), if_pos hq]
      rw [e1]
      have h1 := roundPos_pos (by linarith : (0:ℚ) < -q)
      have h2 := roundPos_pos hq'
      rw [roundDouble_of_pos hq']
      linarith
  · subst hq
    rw [roundDouble_zero]
    exact roundDouble_nonneg h
  · rw [roundDouble_of_pos hq, roundDouble_of_pos (by linarith)]
    exact roundPos_mono hq h

lemma roundDouble_norm {q : ℚ} (h : 0 < q) : IsNormal (roundDouble q) := by
  rw [roundDouble_of_pos h]
  exact roundPos_norm h

lemma roundDouble_fix {x : ℚ} (h : IsNormal x) : roundDouble x = x := by
  have hx : 0 < x := by
    obtain ⟨m, c, hm1, hm2, hx⟩ := h
    rw [hx]
    have : (0:ℚ) < (m:ℚ) := by exact_mod_cast lt_of_lt_of_le (by norm_num) hm1
    exact mul_pos this (two_zpow_pos c)
  rw [roundDouble_of_pos hx]
  exact roundPos_fix h

lemma roundDouble_idem (q : ℚ) : roundDouble (roundDouble q) = roundDouble q := by
  rcases lt_trichotomy q 0 with hq | hq | hq
  · have e1 : roundDouble q = -roundPos (-q) := by
      unfold roundDouble
      rw [if_neg (ne_of_lt hq), if_pos hq]
    rw [e1, roundDouble_neg_eq, roundDouble_fix (roundPos_norm (by linarith))]
  · subst hq
    rw [roundDouble_zero, roundDouble_zero]
  · rw [roundDouble_of_pos hq, roundDouble_fix (roundPos_norm hq)]

lemma roundDouble_le_one {q : ℚ} (h : q ≤ 1) : roundDouble q ≤ 1 := by
  rcases lt_trichotomy q 0 with hq | hq | hq
  · have e1 : roundDouble q = -roundPos (-q) := by
      unfold roundDouble
      rw [if_neg (ne_of_lt hq), if_pos hq]
    rw [e1]
    have := roundPos_pos (by linarith : (0:ℚ) < -q)
    linarith
  · subst hq
    rw [roundDouble_zero]
    norm_num
  · rw [roundDouble_of_pos hq]
    exact roundPos_le_one hq h

lemma roundDouble_nearest {m c : ℤ} (hm1 : 2^52 ≤ m) (hm2 : m < 2^53) {v : ℚ}
    (hv : 0 < v)
    (hclose : |v - (m:ℚ) * (2:ℚ)^c| * (2:ℚ)^(54:ℤ) < (m:ℚ) * (2:ℚ)^c) :
    roundDouble v = (m:ℚ) * (2:ℚ)^c := by
  rw [roundDouble_of_pos hv]
  exact roundPos_nearest hm1 hm2 hv hclose

/-! ## Correctly rounded decimal significands -/

lemma IsNormal_pos {x : ℚ} (h : IsNormal x) : 0 < x := by
  obtain ⟨m, c, hm1, _, hx⟩ := h
  rw [hx]
  have : (0:ℚ) < (m:ℚ) := by exact_mod_cast lt_of_lt_of_le (by norm_num) hm1
  exact mul_pos this (two_zpow_pos c)

lemma dec_scaled_bracket {a : ℚ} (ha : 0 < a) (p : ℕ) :
    (10:ℚ)^((p:ℤ)-1) ≤ a * (10:ℚ)^((p:ℤ) - 1 - flogB 10 a) ∧
      a * (10:ℚ)^((p:ℤ) - 1 - flogB 10 a) < (10:ℚ)^(p:ℤ) := by
  obtain ⟨hl, hr⟩ := flog10_bracket ha
  have hp := ten_zpow_pos ((p:ℤ) - 1 - flogB 10 a)
  constructor
  · calc (10:ℚ)^((p:ℤ)-1) = (10:ℚ)^(flogB 10 a) * (10:ℚ)^((p:ℤ) - 1 - flogB 10 a) := by
          rw [ten_zpow_mul]
          congr 1
          ring
      _ ≤ a * (10:ℚ)^((p:ℤ) - 1 - flogB 10 a) :=
          mul_le_mul_of_nonneg_right hl (le_of_lt hp)
  · calc a * (10:ℚ)^((p:ℤ) - 1 - flogB 10 a)
        < (10:ℚ)^(flogB 10 a + 1) * (10:ℚ)^((p:ℤ) - 1 - flogB 10 a) :=
          mul_lt_mul_of_pos_right hr hp
      _ = (10:ℚ)^(p:ℤ) := by
          rw [ten_zpow_mul]
          congr 1
          ring

lemma ten_zpow_natCast (k : ℕ) : (10:ℚ)^((k:ℕ) : ℤ) = ((10^k : ℕ) : ℚ) := by
  rw [zpow_natCast]
  push_cast
  ring

lemma dec_D_bounds {a : ℚ} (ha : 0 < a) {p : ℕ} (hp : 1 ≤ p) :
    (10^(p-1) : ℤ) ≤ rhe (a * (10:ℚ)^((p:ℤ) - 1 - flogB 10 a)) ∧
      rhe (a * (10:ℚ)^((p:ℤ) - 1 - flogB 10 a)) ≤ 10^p := by
  obtain ⟨hl, hr⟩ := dec_scaled_bracket ha p
  have hge := rhe_ge (a * (10:ℚ)^((p:ℤ) - 1 - flogB 10 a))
  have hle := rhe_le (a * (10:ℚ)^((p:ℤ) - 1 - flogB 10 a))
  have hcast1 : (10:ℚ)^((p:ℤ)-1) = ((10^(p-1) : ℤ) : ℚ) := by
    rw [show (p:ℤ) - 1 = ((p - 1 : ℕ) : ℤ) by omega]
    rw [zpow_natCast]
    push_cast
    ring
  have hcast2 : (10:ℚ)^(p:ℤ) = ((10^p : ℤ) : ℚ) := by
    rw [zpow_natCast]
    push_cast
    ring
  constructor
  · have hq : ((10^(p-1) - 1 : ℤ) : ℚ) < (rhe (a * (10:ℚ)^((p:ℤ) - 1 - flogB 10 a)) : ℚ) := by
      rw [hcast1] at hl
      push_cast
      push_cast at hl
      linarith
    have hz : (10^(p-1) - 1 : ℤ) < rhe (a * (10:ℚ)^((p:ℤ) - 1 - flogB 10 a)) := by
      exact_mod_cast hq
    omega
  · have hq : (rhe (a * (10:ℚ)^((p:ℤ) - 1 - flogB 10 a)) : ℚ) < ((10^p + 1 : ℤ) : ℚ) := by
      rw [hcast2] at hr
      push_cast
      push_cast at hr
      linarith
    have hz : rhe (a * (10:ℚ)^((p:ℤ) - 1 - flogB 10 a)) < (10^p + 1 : ℤ) := by
      exact_mod_cast hq
    omega

lemma tryPrec_bracket {a : ℚ} (ha : 0 < a) {p : ℕ} (hp : 1 ≤ p) :
    10^(p-1) ≤ (tryPrec a (flogB 10 a) p).1 ∧ (tryPrec a (flogB 10 a) p).1 < 10^p := by
  obtain ⟨hDl, hDr⟩ := dec_D_bounds ha hp
  unfold tryPrec
  by_cases hD : (rhe (a * (10:ℚ)^((p:ℤ) - 1 - flogB 10 a))).toNat = 10^p
  · rw [if_pos hD]
    constructor
    · exact le_refl _
    · exact Nat.pow_lt_pow_right (by norm_num) (by omega)
  · rw [if_neg hD]
    have hz : (0:ℤ) ≤ rhe (a * (10:ℚ)^((p:ℤ) - 1 - flogB 10 a)) :=
      le_trans (by positivity) hDl
    constructor
    · rw [Int.le_toNat hz]
      exact_mod_cast hDl
    · have h1 : (rhe (a * (10:ℚ)^((p:ℤ) - 1 - flogB 10 a))).toNat ≤ 10^p := by
        rw [Int.toNat_le]
        exact_mod_cast hDr
      omega

lemma tryPrec_value {a : ℚ} (ha : 0 < a) {p : ℕ} (hp : 1 ≤ p) :
    ((tryPrec a (flogB 10 a) p).1 : ℚ) * (10:ℚ)^((tryPrec a (flogB 10 a) p).2 + 1 - (p:ℤ)) =
      (rhe (a * (10:ℚ)^((p:ℤ) - 1 - flogB 10 a)) : ℚ) * (10:ℚ)^(flogB 10 a + 1 - (p:ℤ)) := by
  obtain ⟨hDl, hDr⟩ := dec_D_bounds ha hp
  have hz : (0:ℤ) ≤ rhe (a * (10:ℚ)^((p:ℤ) - 1 - flogB 10 a)) :=
    le_trans (by positivity) hDl
  have htn : (((rhe (a * (10:ℚ)^((p:ℤ) - 1 - flogB 10 a))).toNat : ℕ) : ℚ) =
      ((rhe (a * (10:ℚ)^((p:ℤ) - 1 - flogB 10 a)) : ℤ) : ℚ) := by
    exact_mod_cast congrArg (fun z : ℤ => (z : ℚ)) (Int.toNat_of_nonneg hz)
  unfold tryPrec
  by_cases hD : (rhe (a * (10:ℚ)^((p:ℤ) - 1 - flogB 10 a))).toNat = 10^p
  · rw [if_pos hD]
    have hDval : ((rhe (a * (10:ℚ)^((p:ℤ) - 1 - flogB 10 a)) : ℤ) : ℚ) = ((10^p : ℕ) : ℚ) := by
      rw [← htn, hD]
    rw [hDval]
    rw [← ten_zpow_natCast, ← ten_zpow_natCast, ten_zpow_mul, ten_zpow_mul]
    congr 1
    omega
  · rw [if_neg hD]
    rw [htn]

lemma tryPrec_roundtrip {m c : ℤ} (hm1 : 2^52 ≤ m) (hm2 : m < 2^53) {p : ℕ}
    (hp : 17 ≤ p) :
    roundDouble (((tryPrec ((m:ℚ) * (2:ℚ)^c) (flogB 10 ((m:ℚ) * (2:ℚ)^c)) p).1 : ℚ) *
        (10:ℚ)^((tryPrec ((m:ℚ) * (2:ℚ)^c) (flogB 10 ((m:ℚ) * (2:ℚ)^c)) p).2 + 1 - (p:ℤ))) =
      (m:ℚ) * (2:ℚ)^c := by
  have hxn : IsNormal ((m:ℚ) * (2:ℚ)^c) := ⟨m, c, hm1, hm2, rfl⟩
  have hx0 : 0 < (m:ℚ) * (2:ℚ)^c := IsNormal_pos hxn
  have hp1 : 1 ≤ p := by omega
  rw [tryPrec_value hx0 hp1]
  set x := (m:ℚ) * (2:ℚ)^c with hxdef
  set n := flogB 10 x with hndef
  set S := (10:ℚ)^((p:ℤ) - 1 - n) with hSdef
  set D := rhe (x * S) with hDdef
  -- the candidate value and its error
  have hSx2 : x * S * (10:ℚ)^(n + 1 - (p:ℤ)) = x := by
    rw [hSdef, mul_assoc, ten_zpow_mul,
      show ((p:ℤ) - 1 - n) + (n + 1 - (p:ℤ)) = (0:ℤ) by ring, zpow_zero, mul_one]
  have herrD : |(D:ℚ) - x * S| ≤ 1/2 := by
    rw [abs_le]
    have h1 := rhe_ge (x * S)
    have h2 := rhe_le (x * S)
    constructor <;> simp only [hDdef] <;> linarith
  have hkey : (D:ℚ) * (10:ℚ)^(n + 1 - (p:ℤ)) - x =
      ((D:ℚ) - x * S) * (10:ℚ)^(n + 1 - (p:ℤ)) := by
    rw [sub_mul, hSx2]
  have herr : |(D:ℚ) * (10:ℚ)^(n + 1 - (p:ℤ)) - x| ≤ (1/2) * (10:ℚ)^(n + 1 - (p:ℤ)) := by
    rw [hkey, abs_mul, abs_of_pos (ten_zpow_pos _)]
    exact mul_le_mul_of_nonneg_right herrD (le_of_lt (ten_zpow_pos _))
  -- the error is below the relative threshold of roundDouble_nearest
  have hbound : (1/2) * (10:ℚ)^(n + 1 - (p:ℤ)) * (2:ℚ)^(54:ℤ) < x := by
    obtain ⟨hxl, _⟩ := flog10_bracket hx0
    rw [← hndef] at hxl
    have hmono : (10:ℚ)^(n + 1 - (p:ℤ)) ≤ (10:ℚ)^(n - 16) :=
      zpow_le_zpow_int (by norm_num) (by omega)
    have h16 : (0:ℚ) < (10:ℚ)^(16:ℤ) := ten_zpow_pos _
    have h54 : (0:ℚ) < (2:ℚ)^(54:ℤ) := two_zpow_pos _
    have hsplit : (10:ℚ)^(n-16) * (10:ℚ)^(16:ℤ) = (10:ℚ)^n := by
      rw [ten_zpow_mul, show n - 16 + (16:ℤ) = n by ring]
    have hlit : (1/2:ℚ) * (2:ℚ)^(54:ℤ) < (10:ℚ)^(16:ℤ) := by norm_num
    rw [← mul_lt_mul_right h16]
    have hstep1 : (1/2) * (10:ℚ)^(n + 1 - (p:ℤ)) * (2:ℚ)^(54:ℤ) * (10:ℚ)^(16:ℤ)
        ≤ (1/2) * (10:ℚ)^(n - 16) * (2:ℚ)^(54:ℤ) * (10:ℚ)^(16:ℤ) := by
      apply mul_le_mul_of_nonneg_right _ (le_of_lt h16)
      apply mul_le_mul_of_nonneg_right _ (le_of_lt h54)
      apply mul_le_mul_of_nonneg_left hmono (by norm_num)
    have hstep2 : (1/2) * (10:ℚ)^(n - 16) * (2:ℚ)^(54:ℤ) * (10:ℚ)^(16:ℤ)
        = (10:ℚ)^n * ((1/2) * (2:ℚ)^(54:ℤ)) := by
      calc (1/2) * (10:ℚ)^(n - 16) * (2:ℚ)^(54:ℤ) * (10:ℚ)^(16:ℤ)
          = ((10:ℚ)^(n-16) * (10:ℚ)^(16:ℤ)) * ((1/2) * (2:ℚ)^(54:ℤ)) := by ring
        _ = (10:ℚ)^n * ((1/2) * (2:ℚ)^(54:ℤ)) := by rw [hsplit]
    have hstep3 : (10:ℚ)^n * ((1/2) * (2:ℚ)^(54:ℤ)) ≤ x * ((1/2) * (2:ℚ)^(54:ℤ)) := by
      apply mul_le_mul_of_nonneg_right hxl
      positivity
    have hstep4 : x * ((1/2) * (2:ℚ)^(54:ℤ)) < x * (10:ℚ)^(16:ℤ) :=
      mul_lt_mul_of_pos_left hlit hx0
    linarith
  have hv0 : 0 < (D:ℚ) * (10:ℚ)^(n + 1 - (p:ℤ)) := by
    obtain ⟨hDl, hDu⟩ := dec_D_bounds hx0 hp1
    rw [← hndef, ← hSdef, ← hDdef] at hDl
    have hD0 : (0:ℤ) < D := by
      have h0 : (0:ℤ) < 10^(p-1) := by positivity
      omega
    have : (0:ℚ) < (D:ℚ) := by exact_mod_cast hD0
    exact mul_pos this (ten_zpow_pos _)
  apply roundDouble_nearest hm1 hm2 hv0
  rw [← hxdef]
  calc |(D:ℚ) * (10:ℚ)^(n + 1 - (p:ℤ)) - x| * (2:ℚ)^(54:ℤ)
      ≤ (1/2) * (10:ℚ)^(n + 1 - (p:ℤ)) * (2:ℚ)^(54:ℤ) :=
        mul_le_mul_of_nonneg_right herr (le_of_lt (two_zpow_pos _))
    _ < x := hbound


/-! ## The shortest round-trip search always returns a faithful candidate -/

lemma sigSearch_spec {x : ℚ} {m c : ℤ} (hm1 : 2^52 ≤ m) (hm2 : m < 2^53)
    (hx : x = (m:ℚ) * (2:ℚ)^c) :
    ∀ f p, 1 ≤ p → 18 ≤ f + p →
      1 ≤ (sigSearch x x (flogB 10 x) f p).1 ∧
      10^((sigSearch x x (flogB 10 x) f p).1 - 1) ≤ (sigSearch x x (flogB 10 x) f p).2.1 ∧
      (sigSearch x x (flogB 10 x) f p).2.1 < 10^(sigSearch x x (flogB 10 x) f p).1 ∧
      roundDouble (((sigSearch x x (flogB 10 x) f p).2.1 : ℚ) *
        (10:ℚ)^((sigSearch x x (flogB 10 x) f p).2.2 + 1 -
          ((sigSearch x x (flogB 10 x) f p).1 : ℤ))) = x := by
  have hx0 : 0 < x := IsNormal_pos ⟨m, c, hm1, hm2, hx⟩
  intro f
  induction f with
  | zero =>
    intro p hp1 hsum
    have hp17 : 17 ≤ p := by omega
    simp only [sigSearch]
    obtain ⟨hbl, hbr⟩ := tryPrec_bracket hx0 hp1
    refine ⟨hp1, hbl, hbr, ?_⟩
    rw [hx]
    exact tryPrec_roundtrip hm1 hm2 hp17
  | succ f ih =>
    intro p hp1 hsum
    simp only [sigSearch]
    by_cases hc : roundDouble (((tryPrec x (flogB 10 x) p).1 : ℚ) *
        (10:ℚ)^((tryPrec x (flogB 10 x) p).2 + 1 - (p:ℤ))) = x
    · rw [if_pos hc]
      obtain ⟨hbl, hbr⟩ := tryPrec_bracket hx0 hp1
      exact ⟨hp1, hbl, hbr, hc⟩
    · rw [if_neg hc]
      exact ih (p+1) (by omega) (by omega)

/-! ## Decimal digit strings: values, lengths, character classes -/

lemma digitVal_digitChar {d : ℕ} (h : d < 10) : digitVal (digitChar d) = d := by
  interval_cases d <;> decide

lemma isDigitCh_digitChar {d : ℕ} (h : d < 10) : isDigitCh (digitChar d) = true := by
  interval_cases d <;> decide

lemma valFrom_eq (l : List Char) :
    ∀ v : ℕ, l.foldl (fun a c => 10 * a + digitVal c) v = v * 10^l.length + digitsVal l := by
  induction l with
  | nil =>
    intro v
    simp [digitsVal]
  | cons c t ih =>
    intro v
    have hz : digitsVal (c :: t) = digitVal c * 10^t.length + digitsVal t := by
      unfold digitsVal
      rw [List.foldl_cons, ih (10 * 0 + digitVal c)]
      ring_nf
      rfl
    rw [List.foldl_cons, ih (10 * v + digitVal c), hz]
    simp [List.length_cons, pow_succ]
    ring

lemma digitsVal_cons (c : Char) (t : List Char) :
    digitsVal (c :: t) = digitVal c * 10^t.length + digitsVal t := by
  unfold digitsVal
  rw [List.foldl_cons, valFrom_eq t (10 * 0 + digitVal c)]
  ring_nf
  rfl

lemma digitsVal_append (xs ys : List Char) :
    digitsVal (xs ++ ys) = digitsVal xs * 10^ys.length + digitsVal ys := by
  unfold digitsVal
  rw [List.foldl_append, valFrom_eq ys]
  rfl

lemma digitsVal_replicate_zero (k : ℕ) (l : List Char) :
    digitsVal (List.replicate k '0' ++ l) = digitsVal l := by
  induction k with
  | zero => simp
  | succ k ih =>
    rw [List.replicate_succ, List.cons_append, digitsVal_cons, ih]
    simp [digitVal]

lemma digitVal_le_nine {c : Char} (h : isDigitCh c = true) : digitVal c ≤ 9 := by
  unfold isDigitCh at h
  rw [Bool.and_eq_true, decide_eq_true_eq, decide_eq_true_eq] at h
  unfold digitVal
  omega

lemma digitsVal_lt {l : List Char} (h : ∀ c ∈ l, isDigitCh c = true) :
    digitsVal l < 10^l.length := by
  induction l with
  | nil => simp [digitsVal]
  | cons c t ih =>
    rw [digitsVal_cons]
    have h1 : digitVal c ≤ 9 := digitVal_le_nine (h c (by simp))
    have h2 : digitsVal t < 10^t.length := ih (fun x hx => h x (by simp [hx]))
    have h3 : digitVal c * 10^t.length ≤ 9 * 10^t.length :=
      Nat.mul_le_mul_right _ h1
    rw [List.length_cons, pow_succ]
    omega

lemma natDigitsAux_acc : ∀ (f n : ℕ) (acc : List Char),
    natDigitsAux f n acc = natDigitsAux f n [] ++ acc := by
  intro f
  induction f with
  | zero =>
    intro n acc
    simp [natDigitsAux]
  | succ f ih =>
    intro n acc
    by_cases h : n < 10
    · simp [natDigitsAux, h]
    · simp only [natDigitsAux, h, if_false]
      rw [ih (n/10) (digitChar (n % 10) :: acc), ih (n/10) [digitChar (n % 10)]]
      simp

lemma natDigits_core : ∀ f n : ℕ, 1 ≤ f → n < 10^f →
    digitsVal (natDigitsAux f n []) = n ∧
    (∀ c ∈ natDigitsAux f n [], isDigitCh c = true) ∧
    1 ≤ (natDigitsAux f n []).length ∧
    n < 10^(natDigitsAux f n []).length ∧
    (1 ≤ n → 10^((natDigitsAux f n []).length - 1) ≤ n) := by
  intro f
  induction f with
  | zero =>
    intro n h1 h2
    omega
  | succ f ih =>
    intro n hf hn
    by_cases h : n < 10
    · simp only [natDigitsAux, h, if_true]
      refine ⟨?_, ?_, ?_, ?_, ?_⟩
      · rw [digitsVal_cons]
        simp [digitsVal, digitVal_digitChar h]
      · intro c hc
        simp at hc
        rw [hc]
        exact isDigitCh_digitChar h
      · simp
      · simpa using h
      · intro h1
        simpa using h1
    · have hf1 : 1 ≤ f := by
        by_contra hc
        push_neg at hc
        interval_cases f
        · simp at hn
          omega
      have hdiv : n / 10 < 10^f := by
        rw [Nat.div_lt_iff_lt_mul (by norm_num)]
        calc n < 10^(f+1) := hn
          _ = 10^f * 10 := by rw [pow_succ]
      obtain ⟨iv, idig, ilen, iub, ilb⟩ := ih (n/10) hf1 hdiv
      have hrw : natDigitsAux (f+1) n [] =
          natDigitsAux f (n/10) [] ++ [digitChar (n % 10)] := by
        simp only [natDigitsAux, h, if_false]
        exact natDigitsAux_acc f (n/10) [digitChar (n % 10)]
      rw [hrw]
      have hmod : n % 10 < 10 := Nat.mod_lt _ (by norm_num)
      refine ⟨?_, ?_, ?_, ?_, ?_⟩
      · rw [digitsVal_append]
        have : digitsVal [digitChar (n % 10)] = n % 10 := by
          rw [digitsVal_cons]
          simp [digitsVal, digitVal_digitChar hmod]
        rw [this, iv]
        simp only [List.length_cons, List.length_nil, pow_succ, pow_zero, one_mul]
        omega
      · intro c hc
        rw [List.mem_append] at hc
        rcases hc with hc | hc
        · exact idig c hc
        · simp at hc
          rw [hc]
          exact isDigitCh_digitChar hmod
      · simp
      · rw [List.length_append]
        simp only [List.length_cons, List.length_nil]
        have hub2 : n < 10^((natDigitsAux f (n/10) []).length + 1) := by
          rw [pow_succ]
          have := Nat.div_add_mod n 10
          have h10 : 10 * (n / 10) + 10 ≤ 10 * 10^((natDigitsAux f (n/10) []).length) := by
            have : n / 10 + 1 ≤ 10^((natDigitsAux f (n/10) []).length) := by omega
            omega
          omega
        calc n < 10^((natDigitsAux f (n/10) []).length + 1) := hub2
          _ = 10^((natDigitsAux f (n/10) []).length + (0 + 1)) := by norm_num
      · intro h1
        rw [List.length_append]
        simp only [List.length_cons, List.length_nil]
        have hd1 : 1 ≤ n / 10 := (Nat.one_le_div_iff (by norm_num)).2 (by omega)
        have := ilb hd1
        have hL : 1 ≤ (natDigitsAux f (n/10) []).length := ilen
        have hpow : 10^((natDigitsAux f (n/10) []).length) ≤ 10 * (n / 10) := by
          calc 10^((natDigitsAux f (n/10) []).length)
              = 10 * 10^((natDigitsAux f (n/10) []).length - 1) := by
                rw [← pow_succ']
                congr 1
                omega
            _ ≤ 10 * (n / 10) := by omega
        have hdm : 10 * (n / 10) ≤ n := Nat.mul_div_le n 10
        calc 10^((natDigitsAux f (n/10) []).length + (0 + 1) - 1)
            = 10^((natDigitsAux f (n/10) []).length) := by congr 1
          _ ≤ n := le_trans hpow hdm

lemma natDigits_spec (n : ℕ) :
    digitsVal (natDigits n) = n ∧
    (∀ c ∈ natDigits n, isDigitCh c = true) ∧
    1 ≤ (natDigits n).length ∧
    n < 10^(natDigits n).length ∧
    (1 ≤ n → 10^((natDigits n).length - 1) ≤ n) := by
  have hlt : n < 10^(n+1) := by
    calc n < 2^n := Nat.lt_two_pow n
      _ ≤ 10^n := Nat.pow_le_pow_left (by norm_num) n
      _ ≤ 10^(n+1) := Nat.pow_le_pow_right (by norm_num) (by omega)
  exact natDigits_core (n+1) n (by omega) hlt

lemma natDigits_length_eq {D p : ℕ} (hp : 1 ≤ p) (h1 : 10^(p-1) ≤ D) (h2 : D < 10^p) :
    (natDigits D).length = p := by
  obtain ⟨_, _, hlen, hub, hlb⟩ := natDigits_spec D
  have hD1 : 1 ≤ D := le_trans (Nat.one_le_pow _ _ (by norm_num)) h1
  have := hlb hD1
  by_contra hne
  rcases lt_or_gt_of_ne hne with hlt | hgt
  · have : (natDigits D).length ≤ p - 1 := by omega
    have : 10^(natDigits D).length ≤ 10^(p-1) := Nat.pow_le_pow_right (by norm_num) this
    omega
  · have : p ≤ (natDigits D).length - 1 := by omega
    have : 10^p ≤ 10^((natDigits D).length - 1) := Nat.pow_le_pow_right (by norm_num) this
    omega

/-! ## Character classes and list scanning -/

lemma digit_ne_e {c : Char} (h : isDigitCh c = true) : (c != 'e') = true := by
  rw [bne_iff_ne]
  intro heq
  subst heq
  exact absurd h (by decide)

lemma digit_ne_dot {c : Char} (h : isDigitCh c = true) : (c != '.') = true := by
  rw [bne_iff_ne]
  intro heq
  subst heq
  exact absurd h (by decide)

lemma takeWhile_append_all {p : Char → Bool} :
    ∀ xs ys, (∀ c ∈ xs, p c = true) →
      List.takeWhile p (xs ++ ys) = xs ++ List.takeWhile p ys := by
  intro xs
  induction xs with
  | nil =>
    intro ys _
    simp
  | cons c t ih =>
    intro ys h
    have hc : p c = true := h c (by simp)
    rw [List.cons_append, List.takeWhile_cons, hc]
    simp only [if_true]
    rw [ih ys (fun x hx => h x (by simp [hx]))]
    rfl

lemma dropWhile_append_all {p : Char → Bool} :
    ∀ xs ys, (∀ c ∈ xs, p c = true) →
      List.dropWhile p (xs ++ ys) = List.dropWhile p ys := by
  intro xs
  induction xs with
  | nil =>
    intro ys _
    simp
  | cons c t ih =>
    intro ys h
    have hc : p c = true := h c (by simp)
    rw [List.cons_append, List.dropWhile_cons, hc]
    simp only [if_true]
    exact ih ys (fun x hx => h x (by simp [hx]))

lemma takeWhile_cons_false {p : Char → Bool} {c : Char} (h : p c = false) (t : List Char) :
    List.takeWhile p (c :: t) = [] := by
  rw [List.takeWhile_cons, h]
  simp

lemma dropWhile_cons_false {p : Char → Bool} {c : Char} (h : p c = false) (t : List Char) :
    List.dropWhile p (c :: t) = c :: t := by
  rw [List.dropWhile_cons, h]
  simp

lemma mem_replicate_zero {k : ℕ} {c : Char} (h : c ∈ List.replicate k '0') : c = '0' :=
  (List.eq_of_mem_replicate h)

/-! ## Parsing the strings produced by the formatter -/

lemma takeWhile_cons_true {p : Char → Bool} {c : Char} (h : p c = true) (t : List Char) :
    List.takeWhile p (c :: t) = c :: List.takeWhile p t := by
  rw [List.takeWhile_cons, h]
  simp

lemma dropWhile_cons_true {p : Char → Bool} {c : Char} (h : p c = true) (t : List Char) :
    List.dropWhile p (c :: t) = List.dropWhile p t := by
  rw [List.dropWhile_cons, h]
  simp

lemma expChars_neg {n : ℤ} (hn : n < 0) :
    ∃ ds : List Char, expChars n = 'e' :: '-' :: ds ∧
      (digitsVal ds : ℤ) = -n ∧ (∀ c ∈ ds, isDigitCh c = true) := by
  obtain ⟨hval, hdig, _, _, _⟩ := natDigits_spec n.natAbs
  unfold expChars
  rw [if_pos hn]
  by_cases hlen : (natDigits n.natAbs).length < 2
  · refine ⟨'0' :: natDigits n.natAbs, ?_, ?_, ?_⟩
    · simp only [hlen, if_true]
    · have hzv : digitsVal ('0' :: natDigits n.natAbs) = digitsVal (natDigits n.natAbs) := by
        have hrep : ('0' :: natDigits n.natAbs) =
            List.replicate 1 '0' ++ natDigits n.natAbs := by simp
        rw [hrep, digitsVal_replicate_zero]
      rw [hzv, hval]
      omega
    · intro c hc
      rcases List.mem_cons.1 hc with rfl | hc
      · decide
      · exact hdig c hc
  · refine ⟨natDigits n.natAbs, ?_, ?_, ?_⟩
    · simp only [hlen, if_false]
    · rw [hval]
      omega
    · exact hdig

lemma parseExp_nil : parseExp [] = 0 := by decide

lemma parseExp_eneg {ds : List Char} {n : ℤ} (hn : n < 0)
    (hexp : expChars n = 'e' :: '-' :: ds) (hval : (digitsVal ds : ℤ) = -n) :
    parseExp (expChars n) = n := by
  rw [hexp]
  unfold parseExp
  simp
  omega

lemma parseMant_zero_dot (body : List Char) (hz : ∀ c ∈ body, (c != '.') = true) :
    parseMant ('0' :: '.' :: body) = (digitsVal body : ℚ) / (10:ℚ)^body.length := by
  unfold parseMant
  have hip : List.takeWhile (fun c => c != '.') ('0' :: '.' :: body) = ['0'] := by
    rw [takeWhile_cons_true (by decide) _, takeWhile_cons_false (by decide) _]
  have hfp : List.dropWhile (fun c => c != '.') ('0' :: '.' :: body) = '.' :: body := by
    rw [dropWhile_cons_true (by decide) _, dropWhile_cons_false (by decide) _]
  rw [hip, hfp]
  simp only [List.drop_succ_cons, List.drop_zero]
  have h0 : digitsVal ['0'] = 0 := by decide
  rw [h0]
  push_cast
  ring

lemma parseMant_zero : parseMant ['0'] = 0 := by with_unfolding_all rfl

lemma parseDecimal_positional (k : ℕ) (digs : List Char)
    (hd : ∀ c ∈ digs, isDigitCh c = true) :
    parseDecimal ('0' :: '.' :: (List.replicate k '0' ++ digs)) =
      (digitsVal digs : ℚ) / (10:ℚ)^(k + digs.length) := by
  have hall : ∀ c ∈ '0' :: '.' :: (List.replicate k '0' ++ digs), ((c != 'e') = true) := by
    intro c hc
    rcases List.mem_cons.1 hc with rfl | hc
    · decide
    rcases List.mem_cons.1 hc with rfl | hc
    · decide
    rcases List.mem_append.1 hc with hc | hc
    · rw [mem_replicate_zero hc]
      decide
    · exact digit_ne_e (hd c hc)
  have hz : ∀ c ∈ List.replicate k '0' ++ digs, (c != '.') = true := by
    intro c hc
    rcases List.mem_append.1 hc with hc | hc
    · rw [mem_replicate_zero hc]
      decide
    · exact digit_ne_dot (hd c hc)
  unfold parseDecimal
  have hhead : ¬(('0' :: '.' :: (List.replicate k '0' ++ digs)).head? = some '-') := by
    simp
  rw [if_neg hhead, if_neg hhead]
  have htake : List.takeWhile (fun c => c != 'e')
      ('0' :: '.' :: (List.replicate k '0' ++ digs)) =
      '0' :: '.' :: (List.replicate k '0' ++ digs) := by
    have h2 := takeWhile_append_all ('0' :: '.' :: (List.replicate k '0' ++ digs)) [] hall
    simpa using h2
  have hdrop : List.dropWhile (fun c => c != 'e')
      ('0' :: '.' :: (List.replicate k '0' ++ digs)) = [] := by
    have h2 := dropWhile_append_all ('0' :: '.' :: (List.replicate k '0' ++ digs)) [] hall
    simpa using h2
  rw [htake, hdrop, parseExp_nil, parseMant_zero_dot _ hz]
  rw [digitsVal_replicate_zero, List.length_append, List.length_replicate]
  rw [zpow_zero]
  ring

lemma parseDecimal_sci (rest : List Char) {n : ℤ} (hn : n < 0)
    (hd : ∀ c ∈ rest, isDigitCh c = true) :
    parseDecimal ('0' :: '.' :: (rest ++ expChars n)) =
      (digitsVal rest : ℚ) / (10:ℚ)^rest.length * (10:ℚ)^n := by
  obtain ⟨ds, hexp, hdsval, hdsdig⟩ := expChars_neg hn
  have hall : ∀ c ∈ '0' :: '.' :: rest, ((c != 'e') = true) := by
    intro c hc
    rcases List.mem_cons.1 hc with rfl | hc
    · decide
    rcases List.mem_cons.1 hc with rfl | hc
    · decide
    · exact digit_ne_e (hd c hc)
  have hassoc : ('0' :: '.' :: (rest ++ expChars n)) =
      ('0' :: '.' :: rest) ++ expChars n := by simp
  unfold parseDecimal
  have hhead : ¬(('0' :: '.' :: (rest ++ expChars n)).head? = some '-') := by simp
  rw [if_neg hhead, if_neg hhead]
  have htake : List.takeWhile (fun c => c != 'e') ('0' :: '.' :: (rest ++ expChars n)) =
      '0' :: '.' :: rest := by
    rw [hassoc, takeWhile_append_all _ _ hall, hexp,
      takeWhile_cons_false (by decide) _, List.append_nil]
  have hdrop : List.dropWhile (fun c => c != 'e') ('0' :: '.' :: (rest ++ expChars n)) =
      expChars n := by
    rw [hassoc, dropWhile_append_all _ _ hall, hexp, dropWhile_cons_false (by decide) _,
      ← hexp]
  rw [htake, hdrop, parseExp_eneg hn hexp hdsval,
    parseMant_zero_dot rest (fun c hc => digit_ne_dot (hd c hc))]
  ring

lemma parseDecimal_sci_single {n : ℤ} (hn : n < 0) :
    parseDecimal ('0' :: expChars n) = 0 := by
  obtain ⟨ds, hexp, hdsval, hdsdig⟩ := expChars_neg hn
  unfold parseDecimal
  have hhead : ¬(('0' :: expChars n).head? = some '-') := by simp
  rw [if_neg hhead, if_neg hhead]
  have htake : List.takeWhile (fun c => c != 'e') ('0' :: expChars n) = ['0'] := by
    rw [takeWhile_cons_true (by decide) _, hexp, takeWhile_cons_false (by decide) _]
  have hdrop : List.dropWhile (fun c => c != 'e') ('0' :: expChars n) = expChars n := by
    rw [dropWhile_cons_true (by decide) _, hexp, dropWhile_cons_false (by decide) _, ← hexp]
  rw [htake, hdrop, parseMant_zero]
  ring


/-! ## The textual fraction spliced in by `hash_to_location` stays in `[0, 1)` -/

lemma isNormal_one : IsNormal 1 :=
  ⟨2^52, -52, le_refl _, by norm_num, by norm_num⟩

lemma isNormal_half : IsNormal (1/2) :=
  ⟨2^52, -53, le_refl _, by norm_num, by norm_num⟩

lemma roundDouble_one : roundDouble 1 = 1 := roundDouble_fix isNormal_one

lemma roundDouble_le_half {q : ℚ} (h : q ≤ 1/2) : roundDouble q ≤ 1/2 := by
  calc roundDouble q ≤ roundDouble (1/2) := roundDouble_mono h
    _ = 1/2 := roundDouble_fix isNormal_half

/-- Main shape analysis: for any double value `x` with `0 ≤ x ≤ 1`, the string
`"0" ++ str(x)[1:]` parses back to a float in `[0, 1)`. -/
lemma offset_bounds {x : ℚ} (hx : x = 0 ∨ (IsNormal x ∧ x < 1) ∨ x = 1) :
    0 ≤ parseFloat ('0' :: (reprDouble x).drop 1) ∧
      parseFloat ('0' :: (reprDouble x).drop 1) < 1 := by
  rcases hx with rfl | ⟨hnorm, hlt⟩ | rfl
  · -- x = 0 : repr is "0.0", offset string is "0.0"
    have hval : parseFloat ('0' :: (reprDouble 0).drop 1) = 0 := by
      with_unfolding_all rfl
    rw [hval]
    norm_num
  · -- 0 < x < 1, normalized
    obtain ⟨m, c, hm1, hm2, hxmc⟩ := hnorm
    have hx0 : 0 < x := IsNormal_pos ⟨m, c, hm1, hm2, hxmc⟩
    have hrepr : reprDouble x = reprPos x := by
      unfold reprDouble
      rw [if_neg (ne_of_gt hx0), if_neg (not_lt_of_gt hx0)]
    obtain ⟨hq1, hDl, hDr, hrt⟩ :=
      sigSearch_spec hm1 hm2 hxmc 17 1 (by omega) (by omega)
    set q := (sigSearch x x (flogB 10 x) 17 1).1 with hqdef
    set D := (sigSearch x x (flogB 10 x) 17 1).2.1 with hDdef
    set nn := (sigSearch x x (flogB 10 x) 17 1).2.2 with hndef
    obtain ⟨hdval, hddig, hdlen1, hdub, hdlb⟩ := natDigits_spec D
    have hdlen : (natDigits D).length = q := natDigits_length_eq hq1 hDl hDr
    -- the candidate value and its decade
    have hDlq : (10:ℚ)^((q:ℤ) - 1) ≤ (D:ℚ) := by
      have h1 : ((10^(q-1) : ℕ) : ℚ) ≤ (D:ℚ) := by exact_mod_cast hDl
      calc (10:ℚ)^((q:ℤ) - 1) = (10:ℚ)^(((q - 1 : ℕ) : ℕ) : ℤ) := by
            congr 1
            omega
        _ = ((10^(q-1) : ℕ) : ℚ) := ten_zpow_natCast _
        _ ≤ (D:ℚ) := h1
    have hvlow : (10:ℚ)^(nn:ℤ) ≤ (D:ℚ) * (10:ℚ)^(nn + 1 - (q:ℤ)) := by
      calc (10:ℚ)^(nn:ℤ) = (10:ℚ)^((q:ℤ)-1) * (10:ℚ)^(nn + 1 - (q:ℤ)) := by
            rw [ten_zpow_mul]
            congr 1
            ring
        _ ≤ (D:ℚ) * (10:ℚ)^(nn + 1 - (q:ℤ)) :=
            mul_le_mul_of_nonneg_right hDlq (le_of_lt (ten_zpow_pos _))
    have hnle : nn ≤ -1 := by
      by_contra hcon
      push_neg at hcon
      have hge0 : (0:ℤ) ≤ nn := by omega
      have h1le : (1:ℚ) ≤ (10:ℚ)^(nn:ℤ) := by
        calc (1:ℚ) = (10:ℚ)^(0:ℤ) := by norm_num
          _ ≤ (10:ℚ)^(nn:ℤ) := zpow_le_zpow_int (by norm_num) hge0
      have hv1 : (1:ℚ) ≤ (D:ℚ) * (10:ℚ)^(nn + 1 - (q:ℤ)) := le_trans h1le hvlow
      have hge1 : (1:ℚ) ≤ x := by
        calc (1:ℚ) = roundDouble 1 := roundDouble_one.symm
          _ ≤ roundDouble ((D:ℚ) * (10:ℚ)^(nn + 1 - (q:ℤ))) := roundDouble_mono hv1
          _ = x := hrt
      linarith
    by_cases hpos : -4 ≤ nn
    · -- positional notation "0.0…0digits"; the parsed value is the candidate value
      have hform : reprPos x = '0' :: '.' ::
          (List.replicate (-nn - 1).toNat '0' ++ natDigits D) := by
        unfold reprPos
        rw [if_pos ⟨hpos, by omega⟩]
        unfold posChars
        rw [if_pos (by omega : nn < 0)]
      have hparse : parseDecimal ('0' :: (reprDouble x).drop 1) =
          (digitsVal (natDigits D) : ℚ) /
            (10:ℚ)^((-nn - 1).toNat + (natDigits D).length) := by
        rw [hrepr, hform]
        simp only [List.drop_succ_cons, List.drop_zero]
        exact parseDecimal_positional _ _ hddig
      have hval : parseDecimal ('0' :: (reprDouble x).drop 1) =
          (D:ℚ) * (10:ℚ)^(nn + 1 - (q:ℤ)) := by
        rw [hparse, hdval, hdlen]
        rw [div_eq_mul_inv]
        congr 1
        rw [show ((10:ℚ)^((-nn - 1).toNat + q) : ℚ) =
          (10:ℚ)^((((-nn - 1).toNat + q : ℕ)) : ℤ) from (zpow_natCast _ _).symm]
        rw [← zpow_neg]
        congr 1
        omega
      unfold parseFloat
      rw [hval, hrt]
      exact ⟨le_of_lt hx0, hlt⟩
    · -- scientific notation; the offset is at most 10^nn ≤ 1/10
      push_neg at hpos
      have hsci : reprPos x = sciChars (natDigits D) nn := by
        unfold reprPos
        rw [if_neg (by omega)]
      have hne : natDigits D ≠ [] := by
        intro hnil
        rw [hnil] at hdlen
        simp at hdlen
        omega
      obtain ⟨d0, rest, hcons⟩ := List.exists_cons_of_ne_nil hne
      have hnn0 : nn < 0 := by omega
      rcases hrestcase : rest with _ | ⟨r0, rs⟩
      · -- single digit: "de±XX", offset string "0e±XX" parses to 0
        have hform : reprPos x = d0 :: expChars nn := by
          rw [hsci, hcons, hrestcase]
          unfold sciChars
          simp
        have hval : parseDecimal ('0' :: (reprDouble x).drop 1) = 0 := by
          rw [hrepr, hform]
          simp only [List.drop_succ_cons, List.drop_zero]
          exact parseDecimal_sci_single hnn0
        unfold parseFloat
        rw [hval, roundDouble_zero]
        norm_num
      · -- "d.rest e±XX", offset string "0.rest e±XX"
        have hform : reprPos x = d0 :: '.' :: ((r0 :: rs) ++ expChars nn) := by
          rw [hsci, hcons, hrestcase]
          unfold sciChars
          simp
        have hrdig : ∀ ch ∈ r0 :: rs, isDigitCh ch = true := by
          intro ch hch
          apply hddig
          rw [hcons, hrestcase]
          simp [hch]
        have hval : parseDecimal ('0' :: (reprDouble x).drop 1) =
            (digitsVal (r0 :: rs) : ℚ) / (10:ℚ)^(r0 :: rs).length * (10:ℚ)^(nn:ℤ) := by
          rw [hrepr, hform]
          simp only [List.drop_succ_cons, List.drop_zero]
          exact parseDecimal_sci _ hnn0 hrdig
        have hfrac : (digitsVal (r0 :: rs) : ℚ) / (10:ℚ)^(r0 :: rs).length < 1 := by
          rw [div_lt_one (by positivity)]
          exact_mod_cast digitsVal_lt hrdig
        have h10 : (10:ℚ)^(nn:ℤ) ≤ (10:ℚ)^(-1:ℤ) :=
          zpow_le_zpow_int (by norm_num) (by omega)
        have hsmall : parseDecimal ('0' :: (reprDouble x).drop 1) ≤ 1/2 := by
          rw [hval]
          have h1 : (digitsVal (r0 :: rs) : ℚ) / (10:ℚ)^(r0 :: rs).length * (10:ℚ)^(nn:ℤ)
              ≤ 1 * (10:ℚ)^(nn:ℤ) :=
            mul_le_mul_of_nonneg_right (le_of_lt hfrac) (le_of_lt (ten_zpow_pos _))
          have h2 : (10:ℚ)^(-1:ℤ) ≤ 1/2 := by norm_num
          calc (digitsVal (r0 :: rs) : ℚ) / (10:ℚ)^(r0 :: rs).length * (10:ℚ)^(nn:ℤ)
              ≤ 1 * (10:ℚ)^(nn:ℤ) := h1
            _ = (10:ℚ)^(nn:ℤ) := one_mul _
            _ ≤ (10:ℚ)^(-1:ℤ) := h10
            _ ≤ 1/2 := h2
        have hpos2 : 0 ≤ parseDecimal ('0' :: (reprDouble x).drop 1) := by
          rw [hval]
          positivity
        unfold parseFloat
        constructor
        · exact roundDouble_nonneg hpos2
        · calc roundDouble (parseDecimal ('0' :: (reprDouble x).drop 1)) ≤ 1/2 :=
              roundDouble_le_half hsmall
            _ < 1 := by norm_num
  · -- x = 1 : repr is "1.0", offset string is "0.0"
    have hval : parseFloat ('0' :: (reprDouble 1).drop 1) = 0 := by
      with_unfolding_all rfl
    rw [hval]
    norm_num

/-! ## Digest halves: hex value bounds and classification as doubles -/

lemma hexDigitVal_le {c : Char} (h : isHexCh c = true) : hexDigitVal c ≤ 15 := by
  unfold isHexCh at h
  rw [Bool.or_eq_true, Bool.and_eq_true, Bool.and_eq_true,
    decide_eq_true_eq, decide_eq_true_eq, decide_eq_true_eq, decide_eq_true_eq] at h
  unfold hexDigitVal
  rcases h with ⟨h1, h2⟩ | ⟨h1, h2⟩
  · rw [if_pos h2]
    omega
  · rw [if_neg (by omega)]
    omega

lemma hexValFrom_eq (l : List Char) :
    ∀ v : ℕ, l.foldl (fun a c => 16 * a + hexDigitVal c) v =
      v * 16^l.length + hexVal l := by
  induction l with
  | nil =>
    intro v
    simp [hexVal]
  | cons c t ih =>
    intro v
    have hz : hexVal (c :: t) = hexDigitVal c * 16^t.length + hexVal t := by
      unfold hexVal
      rw [List.foldl_cons, ih (16 * 0 + hexDigitVal c)]
      ring_nf
      rfl
    rw [List.foldl_cons, ih (16 * v + hexDigitVal c), hz]
    simp [List.length_cons, pow_succ]
    ring

lemma hexVal_cons (c : Char) (t : List Char) :
    hexVal (c :: t) = hexDigitVal c * 16^t.length + hexVal t := by
  unfold hexVal
  rw [List.foldl_cons, hexValFrom_eq t (16 * 0 + hexDigitVal c)]
  ring_nf
  rfl

lemma hexVal_lt {l : List Char} (h : ∀ c ∈ l, isHexCh c = true) :
    hexVal l < 16^l.length := by
  induction l with
  | nil => simp [hexVal]
  | cons c t ih =>
    rw [hexVal_cons]
    have h1 : hexDigitVal c ≤ 15 := hexDigitVal_le (h c (by simp))
    have h2 : hexVal t < 16^t.length := ih (fun x hx => h x (by simp [hx]))
    have h3 : hexDigitVal c * 16^t.length ≤ 15 * 16^t.length :=
      Nat.mul_le_mul_right _ h1
    rw [List.length_cons, pow_succ]
    omega

/-- For an all-hex digest half, `float.fromhex("0." + h)` is zero, a normal
double strictly below `1`, or exactly `1`. -/
lemma fromhexVal_class {h : List Char} (hhex : ∀ c ∈ h, isHexCh c = true) :
    fromhexVal h = 0 ∨ (IsNormal (fromhexVal h) ∧ fromhexVal h < 1) ∨
      fromhexVal h = 1 := by
  unfold fromhexVal
  set a : ℚ := (hexVal h : ℚ) / (16:ℚ)^h.length with hadef
  have hden : (0:ℚ) < (16:ℚ)^h.length := by positivity
  have ha0 : 0 ≤ a := by
    rw [hadef]
    positivity
  have ha1 : a < 1 := by
    rw [hadef, div_lt_one hden]
    exact_mod_cast hexVal_lt hhex
  rcases eq_or_lt_of_le ha0 with hz | hpos
  · left
    rw [← hz, roundDouble_zero]
  · have hle : roundDouble a ≤ 1 := roundDouble_le_one (le_of_lt ha1)
    rcases lt_or_eq_of_le hle with hlt | heq
    · exact Or.inr (Or.inl ⟨roundDouble_norm hpos, hlt⟩)
    · exact Or.inr (Or.inr heq)

/-- Core of the range claim: the fractional offset of an all-hex digest half
lies in `[0, 1)`. -/
lemma fracOffset_bounds_aux {h : List Char} (hhex : ∀ c ∈ h, isHexCh c = true) :
    0 ≤ fracOffset h ∧ fracOffset h < 1 := by
  unfold fracOffset
  exact offset_bounds (fromhexVal_class hhex)

/-! ## Shape of an MD5 hexdigest -/

lemma md5Bytes_length (msg : List ℕ) : (md5Bytes msg).length = 16 := rfl

lemma md5Hex_length_aux (l : List ℕ) :
    (l.flatMap (fun b => [hexChar (b / 16), hexChar b])).length = 2 * l.length := by
  induction l with
  | nil => rfl
  | cons c t ih =>
    rw [List.flatMap_cons]
    simp only [List.length_append, List.length_cons, List.length_nil, ih]
    omega

lemma md5Hex_length (msg : List ℕ) : (md5Hex msg).length = 32 := by
  unfold md5Hex
  rw [md5Hex_length_aux, md5Bytes_length]

lemma isHexCh_hexChar (n : ℕ) : isHexCh (hexChar n) = true := by
  unfold hexChar
  have h16 : n % 16 < 16 := Nat.mod_lt _ (by norm_num)
  set k := n % 16 with hk
  interval_cases k <;> decide

lemma mem_md5Hex_isHex (msg : List ℕ) :
    ∀ c ∈ md5Hex msg, isHexCh c = true := by
  intro c hc
  unfold md5Hex at hc
  rw [List.mem_flatMap] at hc
  obtain ⟨b, _, hcb⟩ := hc
  simp only [List.mem_cons, List.not_mem_nil, or_false] at hcb
  rcases hcb with rfl | rfl
  · exact isHexCh_hexChar _
  · exact isHexCh_hexChar _

lemma md5HexCh_take16_hex (s : List Char) :
    ∀ c ∈ (md5HexCh s).take 16, isHexCh c = true :=
  fun c hc => mem_md5Hex_isHex (s.map Char.toNat) c (List.mem_of_mem_take hc)

lemma md5HexCh_drop16_hex (s : List Char) :
    ∀ c ∈ (md5HexCh s).drop 16, isHexCh c = true :=
  fun c hc => mem_md5Hex_isHex (s.map Char.toNat) c (List.mem_of_mem_drop hc)

/-! ## Doubles below one, and the `globalhash` rescaling -/

/-- Every output of `roundDouble` is zero, normal, or negative. -/
lemma roundDouble_cases (q : ℚ) :
    roundDouble q = 0 ∨ IsNormal (roundDouble q) ∨ roundDouble q < 0 := by
  rcases lt_trichotomy q 0 with hneg | hz | hpos
  · right; right
    unfold roundDouble
    rw [if_neg (ne_of_lt hneg), if_pos hneg]
    have h1 : 0 < roundPos (-q) := roundPos_pos (by linarith)
    linarith
  · left
    rw [hz, roundDouble_zero]
  · right; left
    exact roundDouble_norm hpos

/-- The fractional offset is itself a rounded value, hence zero, normal, or
negative. -/
lemma fracOffset_double (h : List Char) :
    fracOffset h = 0 ∨ IsNormal (fracOffset h) ∨ fracOffset h < 0 :=
  roundDouble_cases (parseDecimal ('0' :: (reprDouble (fromhexVal h)).drop 1))

/-- A normal double below `1` is at most `1 - 2^-53`. -/
lemma normal_lt_one_le {x : ℚ} (hn : IsNormal x) (hlt : x < 1) :
    x ≤ 1 - (2:ℚ)^(-53:ℤ) := by
  obtain ⟨m, c, hm1, hm2, hx⟩ := hn
  have hc : c ≤ -53 := by
    by_contra hcon
    push_neg at hcon
    have hc52 : (0:ℤ) ≤ c + 52 := by omega
    have h1 : (1:ℚ) ≤ (2:ℚ)^(c + 52) := by
      calc (1:ℚ) = (2:ℚ)^(0:ℤ) := by norm_num
        _ ≤ (2:ℚ)^(c + 52) := zpow_le_zpow_int (by norm_num) hc52
    have h2 : (2:ℚ)^(c + 52) ≤ x := by
      rw [hx, show c + 52 = 52 + c by ring, ← two_zpow_mul 52 c]
      apply mul_le_mul_of_nonneg_right _ (le_of_lt (two_zpow_pos c))
      have hm1' : ((2^52 : ℤ) : ℚ) ≤ (m : ℚ) := by exact_mod_cast hm1
      calc (2:ℚ)^(52:ℤ) = ((2^52 : ℤ) : ℚ) := by norm_num
        _ ≤ (m:ℚ) := hm1'
    linarith
  have hm : (m:ℚ) ≤ (2:ℚ)^(53:ℤ) - 1 := by
    have hmz : m ≤ 2^53 - 1 := by omega
    calc (m:ℚ) ≤ ((2^53 - 1 : ℤ) : ℚ) := by exact_mod_cast hmz
      _ = (2:ℚ)^(53:ℤ) - 1 := by norm_num
  have hxle : x ≤ ((2:ℚ)^(53:ℤ) - 1) * (2:ℚ)^c := by
    rw [hx]
    exact mul_le_mul_of_nonneg_right hm (le_of_lt (two_zpow_pos c))
  have hcmono : (2:ℚ)^c ≤ (2:ℚ)^(-53:ℤ) := zpow_le_zpow_int (by norm_num) hc
  have hfac : (0:ℚ) ≤ (2:ℚ)^(53:ℤ) - 1 := by norm_num
  calc x ≤ ((2:ℚ)^(53:ℤ) - 1) * (2:ℚ)^c := hxle
    _ ≤ ((2:ℚ)^(53:ℤ) - 1) * (2:ℚ)^(-53:ℤ) :=
        mul_le_mul_of_nonneg_left hcmono hfac
    _ = 1 - (2:ℚ)^(-53:ℤ) := by
        rw [sub_mul, two_zpow_mul, one_mul]
        norm_num

lemma isNormal_ninety : IsNormal (90:ℚ) :=
  ⟨45 * 2^47, -46, by norm_num, by norm_num, by norm_num⟩

lemma isNormal_oneEighty : IsNormal (180:ℚ) :=
  ⟨45 * 2^47, -45, by norm_num, by norm_num, by norm_num⟩

/-- `globalhash` latitude rescaling: a double `y ∈ [0,1)` maps into
`[-90, 90)` under `fl(fl(y * 180) - 90)`. -/
lemma rescale_lat {y : ℚ} (h0 : 0 ≤ y) (h1 : y < 1)
    (hd : y = 0 ∨ IsNormal y) :
    -90 ≤ roundDouble (roundDouble (y * 180) - 90) ∧
      roundDouble (roundDouble (y * 180) - 90) < 90 := by
  have hyle : y ≤ 1 - (2:ℚ)^(-53:ℤ) := by
    rcases hd with rfl | hn
    · norm_num
    · exact normal_lt_one_le hn h1
  have hmul : y * 180 ≤ (1 - (2:ℚ)^(-53:ℤ)) * 180 :=
    mul_le_mul_of_nonneg_right hyle (by norm_num)
  have hstep1 : roundDouble (y * 180) ≤ roundDouble ((1 - (2:ℚ)^(-53:ℤ)) * 180) :=
    roundDouble_mono hmul
  have hstep3 : roundDouble (roundDouble (y * 180) - 90) ≤
      roundDouble (roundDouble ((1 - (2:ℚ)^(-53:ℤ)) * 180) - 90) :=
    roundDouble_mono (by linarith)
  have hend : roundDouble (roundDouble ((1 - (2:ℚ)^(-53:ℤ)) * 180) - 90) < 90 :=
    of_decide_eq_true (by with_unfolding_all rfl)
  have hy0 : 0 ≤ roundDouble (y * 180) :=
    roundDouble_nonneg (by positivity)
  have hfix90 : roundDouble (-(90:ℚ)) = -90 := by
    rw [roundDouble_neg_eq, roundDouble_fix isNormal_ninety]
  have hlow : -90 ≤ roundDouble (roundDouble (y * 180) - 90) := by
    calc (-90:ℚ) = roundDouble (-(90:ℚ)) := hfix90.symm
      _ ≤ roundDouble (roundDouble (y * 180) - 90) :=
          roundDouble_mono (by linarith)
  exact ⟨hlow, lt_of_le_of_lt hstep3 hend⟩

/-- `globalhash` longitude rescaling: a double `y ∈ [0,1)` maps into
`[-180, 180)` under `fl(fl(y * 360) - 180)`. -/
lemma rescale_lon {y : ℚ} (h0 : 0 ≤ y) (h1 : y < 1)
    (hd : y = 0 ∨ IsNormal y) :
    -180 ≤ roundDouble (roundDouble (y * 360) - 180) ∧
      roundDouble (roundDouble (y * 360) - 180) < 180 := by
  have hyle : y ≤ 1 - (2:ℚ)^(-53:ℤ) := by
    rcases hd with rfl | hn
    · norm_num
    · exact normal_lt_one_le hn h1
  have hmul : y * 360 ≤ (1 - (2:ℚ)^(-53:ℤ)) * 360 :=
    mul_le_mul_of_nonneg_right hyle (by norm_num)
  have hstep1 : roundDouble (y * 360) ≤ roundDouble ((1 - (2:ℚ)^(-53:ℤ)) * 360) :=
    roundDouble_mono hmul
  have hstep3 : roundDouble (roundDouble (y * 360) - 180) ≤
      roundDouble (roundDouble ((1 - (2:ℚ)^(-53:ℤ)) * 360) - 180) :=
    roundDouble_mono (by linarith)
  have hend : roundDouble (roundDouble ((1 - (2:ℚ)^(-53:ℤ)) * 360) - 180) < 180 :=
    of_decide_eq_true (by with_unfolding_all rfl)
  have hy0 : 0 ≤ roundDouble (y * 360) :=
    roundDouble_nonneg (by positivity)
  have hfix180 : roundDouble (-(180:ℚ)) = -180 := by
    rw [roundDouble_neg_eq, roundDouble_fix isNormal_oneEighty]
  have hlow : -180 ≤ roundDouble (roundDouble (y * 360) - 180) := by
    calc (-180:ℚ) = roundDouble (-(180:ℚ)) := hfix180.symm
      _ ≤ roundDouble (roundDouble (y * 360) - 180) :=
          roundDouble_mono (by linarith)
  exact ⟨hlow, lt_of_le_of_lt hstep3 hend⟩

/-! ## `hash_to_location` at the zero graticule -/

lemma intStr_truncQ_zero : intStr (truncQ 0) = ['0'] := by
  with_unfolding_all rfl

lemma hashToLocation_zero (hash : List Char) :
    hashToLocation 0 0 hash =
      (fracOffset (hash.take 16), fracOffset (hash.drop 16)) := by
  simp only [hashToLocation, fracOffset]
  rw [intStr_truncQ_zero]
  rfl

/-- Any successful `get_hash` result is an MD5 hexdigest of some message. -/
lemma getHash_ok_shape {east : Bool} {date : GDate} {dj : Option (List Char)}
    {env : List Char → SourceResult} {d : List Char}
    (h : getHash east date dj env = .ok d) :
    ∃ msg, d = md5HexCh msg := by
  rcases dj with _ | s
  · simp only [getHash] at h
    rcases hres : getDowJones east date env with e | v
    · rw [hres] at h
      simp only [Except.map] at h
      exact Except.noConfusion h
    · rw [hres] at h
      simp only [Except.map] at h
      injection h with h2
      exact ⟨_, h2.symm⟩
  · simp only [getHash] at h
    injection h with h2
    exact ⟨_, h2.symm⟩

/-! ## The retrieval loop -/

lemma dowLoop_skip {key : List Char} {env : List Char → SourceResult}
    {u : List Char} (hu : failsB (env (u ++ key)) = true) (rest : List (List Char)) :
    dowLoop key env (u :: rest) = dowLoop key env rest := by
  rcases henv : env (u ++ key) with _ | ⟨s, b⟩
  · simp only [dowLoop, henv]
  · rw [henv] at hu
    simp only [failsB] at hu
    have hs : ¬ s = 200 := by
      intro hs200
      rw [if_pos hs200] at hu
      exact Bool.noConfusion hu
    simp only [dowLoop, henv]
    rw [if_neg hs]

lemma dowLoop_first_success {key : List Char} {env : List Char → SourceResult}
    {u b : List Char} (henv : env (u ++ key) = .response 200 b) :
    ∀ (urls₁ urls₂ : List (List Char)),
      (∀ u' ∈ urls₁, failsB (env (u' ++ key)) = true) →
      dowLoop key env (urls₁ ++ u :: urls₂) = .ok (pyStrip b) := by
  intro urls₁
  induction urls₁ with
  | nil =>
    intro urls₂ _
    rw [List.nil_append]
    simp only [dowLoop, henv]
    rfl
  | cons u' rest ih =>
    intro urls₂ hfail
    rw [List.cons_append, dowLoop_skip (hfail u' (by simp)) _]
    exact ih urls₂ (fun x hx => hfail x (by simp [hx]))

lemma dowLoop_all_fail_iff {key : List Char} {env : List Char → SourceResult} :
    ∀ urls : List (List Char),
      (dowLoop key env urls = .error sourcesErrMsg ↔
        ∀ u ∈ urls, failsB (env (u ++ key)) = true) := by
  intro urls
  induction urls with
  | nil => simp [dowLoop]
  | cons u rest ih =>
    rcases henv : env (u ++ key) with _ | ⟨s, bb⟩
    · have hskip : dowLoop key env (u :: rest) = dowLoop key env rest :=
        dowLoop_skip (by rw [henv]; rfl) rest
      rw [hskip, ih]
      constructor
      · intro h u' hu'
        rcases List.mem_cons.mp hu' with rfl | hmem
        · rw [henv]
          rfl
        · exact h u' hmem
      · intro h u' hu'
        exact h u' (List.mem_cons_of_mem _ hu')
    · by_cases hs : s = 200
      · subst hs
        have hok : dowLoop key env (u :: rest) = .ok (pyStrip bb) := by
          simp only [dowLoop, henv]
          rfl
        rw [hok]
        constructor
        · intro h
          exact Except.noConfusion h
        · intro h
          have hfl := h u (by simp)
          rw [henv] at hfl
          have hred : failsB (SourceResult.response 200 bb) = false := rfl
          rw [hred] at hfl
          exact Bool.noConfusion hfl
      · have hfailu : failsB (env (u ++ key)) = true := by
          rw [henv]
          simp only [failsB]
          rw [if_neg hs]
        have hskip := dowLoop_skip hfailu rest
        rw [hskip, ih]
        constructor
        · intro h u' hu'
          rcases List.mem_cons.mp hu' with rfl | hmem
          · exact hfailu
          · exact h u' hmem
        · intro h u' hu'
          exact h u' (List.mem_cons_of_mem _ hu')

lemma md5HexCh_all_hex (s : List Char) : (md5HexCh s).all isHexCh = true := by
  rw [List.all_eq_true]
  exact fun c hc => mem_md5Hex_isHex (s.map Char.toNat) c hc

/-! ## Stepwise evaluation of `repr` for the concrete values of the claims

The shortest-round-trip search is evaluated one precision at a time (one
kernel reduction per candidate), which keeps every single reduction small. -/

lemma sigSearch_succ (x a : ℚ) (nd : ℤ) (f p : ℕ) :
    sigSearch x a nd (f+1) p =
      if roundDouble (((tryPrec a nd p).1 : ℚ) * (10:ℚ)^((tryPrec a nd p).2 + 1 - (p:ℤ))) = x
      then (p, tryPrec a nd p) else sigSearch x a nd f (p+1) := by
  simp only [sigSearch]

lemma sigSearch_step_miss2 {x a : ℚ} {nd : ℤ} {p : ℕ} (f : ℕ) {D : ℕ} {n : ℤ}
    (ht : tryPrec a nd p = (D, n))
    (h : decide (roundDouble ((D : ℚ) * (10:ℚ)^(n + 1 - (p:ℤ))) = x) = false) :
    sigSearch x a nd (f+1) p = sigSearch x a nd f (p+1) := by
  rw [sigSearch_succ, ht, if_neg (of_decide_eq_false h)]

lemma sigSearch_step_hit2 {x a : ℚ} {nd : ℤ} {p : ℕ} (f : ℕ) {D : ℕ} {n : ℤ}
    (ht : tryPrec a nd p = (D, n))
    (h : roundDouble ((D : ℚ) * (10:ℚ)^(n + 1 - (p:ℤ))) = x) :
    sigSearch x a nd (f+1) p = (p, D, n) := by
  rw [sigSearch_succ, ht, if_pos h]

lemma sigA1 : sigSearch (1/65536 : ℚ) (1/65536 : ℚ) (-5) 17 1 = sigSearch (1/65536 : ℚ) (1/65536 : ℚ) (-5) 16 2 :=
  sigSearch_step_miss2 16 (by with_unfolding_all rfl) (by with_unfolding_all rfl)

lemma sigA2 : sigSearch (1/65536 : ℚ) (1/65536 : ℚ) (-5) 16 2 = sigSearch (1/65536 : ℚ) (1/65536 : ℚ) (-5) 15 3 :=
  sigSearch_step_miss2 15 (by with_unfolding_all rfl) (by with_unfolding_all rfl)

lemma sigA3 : sigSearch (1/65536 : ℚ) (1/65536 : ℚ) (-5) 15 3 = sigSearch (1/65536 : ℚ) (1/65536 : ℚ) (-5) 14 4 :=
  sigSearch_step_miss2 14 (by with_unfolding_all rfl) (by with_unfolding_all rfl)

lemma sigA4 : sigSearch (1/65536 : ℚ) (1/65536 : ℚ) (-5) 14 4 = sigSearch (1/65536 : ℚ) (1/65536 : ℚ) (-5) 13 5 :=
  sigSearch_step_miss2 13 (by with_unfolding_all rfl) (by with_unfolding_all rfl)

lemma sigA5 : sigSearch (1/65536 : ℚ) (1/65536 : ℚ) (-5) 13 5 = sigSearch (1/65536 : ℚ) (1/65536 : ℚ) (-5) 12 6 :=
  sigSearch_step_miss2 12 (by with_unfolding_all rfl) (by with_unfolding_all rfl)

lemma sigA6 : sigSearch (1/65536 : ℚ) (1/65536 : ℚ) (-5) 12 6 = sigSearch (1/65536 : ℚ) (1/65536 : ℚ) (-5) 11 7 :=
  sigSearch_step_miss2 11 (by with_unfolding_all rfl) (by with_unfolding_all rfl)

lemma sigA7 : sigSearch (1/65536 : ℚ) (1/65536 : ℚ) (-5) 11 7 = sigSearch (1/65536 : ℚ) (1/65536 : ℚ) (-5) 10 8 :=
  sigSearch_step_miss2 10 (by with_unfolding_all rfl) (by with_unfolding_all rfl)

lemma sigA8 : sigSearch (1/65536 : ℚ) (1/65536 : ℚ) (-5) 10 8 = sigSearch (1/65536 : ℚ) (1/65536 : ℚ) (-5) 9 9 :=
  sigSearch_step_miss2 9 (by with_unfolding_all rfl) (by with_unfolding_all rfl)

lemma sigA9 : sigSearch (1/65536 : ℚ) (1/65536 : ℚ) (-5) 9 9 = sigSearch (1/65536 : ℚ) (1/65536 : ℚ) (-5) 8 10 :=
  sigSearch_step_miss2 8 (by with_unfolding_all rfl) (by with_unfolding_all rfl)

lemma sigA10 : sigSearch (1/65536 : ℚ) (1/65536 : ℚ) (-5) 8 10 = sigSearch (1/65536 : ℚ) (1/65536 : ℚ) (-5) 7 11 :=
  sigSearch_step_miss2 7 (by with_unfolding_all rfl) (by with_unfolding_all rfl)

lemma sigA11 : sigSearch (1/65536 : ℚ) (1/65536 : ℚ) (-5) 7 11 = sigSearch (1/65536 : ℚ) (1/65536 : ℚ) (-5) 6 12 :=
  sigSearch_step_miss2 6 (by with_unfolding_all rfl) (by with_unfolding_all rfl)

lemma sigA12 : sigSearch (1/65536 : ℚ) (1/65536 : ℚ) (-5) 6 12 = (12, 152587890625, -5) :=
  sigSearch_step_hit2 5 (by with_unfolding_all rfl) (by with_unfolding_all rfl)

lemma sigA : sigSearch (1/65536 : ℚ) (1/65536 : ℚ) (-5) 17 1 = (12, 152587890625, -5) :=
  sigA1.trans (sigA2.trans (sigA3.trans (sigA4.trans (sigA5.trans (sigA6.trans (sigA7.trans (sigA8.trans (sigA9.trans (sigA10.trans (sigA11.trans (sigA12)))))))))))

lemma sigB1 : sigSearch (1931398576417993/2251799813685248 : ℚ) (1931398576417993/2251799813685248 : ℚ) (-1) 17 1 = sigSearch (1931398576417993/2251799813685248 : ℚ) (1931398576417993/2251799813685248 : ℚ) (-1) 16 2 :=
  sigSearch_step_miss2 16 (by with_unfolding_all rfl) (by with_unfolding_all rfl)

lemma sigB2 : sigSearch (1931398576417993/2251799813685248 : ℚ) (1931398576417993/2251799813685248 : ℚ) (-1) 16 2 = sigSearch (1931398576417993/2251799813685248 : ℚ) (1931398576417993/2251799813685248 : ℚ) (-1) 15 3 :=
  sigSearch_step_miss2 15 (by with_unfolding_all rfl) (by with_unfolding_all rfl)

lemma sigB3 : sigSearch (1931398576417993/2251799813685248 : ℚ) (1931398576417993/2251799813685248 : ℚ) (-1) 15 3 = sigSearch (1931398576417993/2251799813685248 : ℚ) (1931398576417993/2251799813685248 : ℚ) (-1) 14 4 :=
  sigSearch_step_miss2 14 (by with_unfolding_all rfl) (by with_unfolding_all rfl)

lemma sigB4 : sigSearch (1931398576417993/2251799813685248 : ℚ) (1931398576417993/2251799813685248 : ℚ) (-1) 14 4 = sigSearch (1931398576417993/2251799813685248 : ℚ) (1931398576417993/2251799813685248 : ℚ) (-1) 13 5 :=
  sigSearch_step_miss2 13 (by with_unfolding_all rfl) (by with_unfolding_all rfl)

lemma sigB5 : sigSearch (1931398576417993/2251799813685248 : ℚ) (1931398576417993/2251799813685248 : ℚ) (-1) 13 5 = sigSearch (1931398576417993/2251799813685248 : ℚ) (1931398576417993/2251799813685248 : ℚ) (-1) 12 6 :=
  sigSearch_step_miss2 12 (by with_unfolding_all rfl) (by with_unfolding_all rfl)

lemma sigB6 : sigSearch (1931398576417993/2251799813685248 : ℚ) (1931398576417993/2251799813685248 : ℚ) (-1) 12 6 = sigSearch (1931398576417993/2251799813685248 : ℚ) (1931398576417993/2251799813685248 : ℚ) (-1) 11 7 :=
  sigSearch_step_miss2 11 (by with_unfolding_all rfl) (by with_unfolding_all rfl)

lemma sigB7 : sigSearch (1931398576417993/2251799813685248 : ℚ) (1931398576417993/2251799813685248 : ℚ) (-1) 11 7 = sigSearch (1931398576417993/2251799813685248 : ℚ) (1931398576417993/2251799813685248 : ℚ) (-1) 10 8 :=
  sigSearch_step_miss2 10 (by with_unfolding_all rfl) (by with_unfolding_all rfl)

lemma sigB8 : sigSearch (1931398576417993/2251799813685248 : ℚ) (1931398576417993/2251799813685248 : ℚ) (-1) 10 8 = sigSearch (1931398576417993/2251799813685248 : ℚ) (1931398576417993/2251799813685248 : ℚ) (-1) 9 9 :=
  sigSearch_step_miss2 9 (by with_unfolding_all rfl) (by with_unfolding_all rfl)

lemma sigB9 : sigSearch (1931398576417993/2251799813685248 : ℚ) (1931398576417993/2251799813685248 : ℚ) (-1) 9 9 = sigSearch (1931398576417993/2251799813685248 : ℚ) (1931398576417993/2251799813685248 : ℚ) (-1) 8 10 :=
  sigSearch_step_miss2 8 (by with_unfolding_all rfl) (by with_unfolding_all rfl)

lemma sigB10 : sigSearch (1931398576417993/2251799813685248 : ℚ) (1931398576417993/2251799813685248 : ℚ) (-1) 8 10 = sigSearch (1931398576417993/2251799813685248 : ℚ) (1931398576417993/2251799813685248 : ℚ) (-1) 7 11 :=
  sigSearch_step_miss2 7 (by with_unfolding_all rfl) (by with_unfolding_all rfl)

lemma sigB11 : sigSearch (1931398576417993/2251799813685248 : ℚ) (1931398576417993/2251799813685248 : ℚ) (-1) 7 11 = sigSearch (1931398576417993/2251799813685248 : ℚ) (1931398576417993/2251799813685248 : ℚ) (-1) 6 12 :=
  sigSearch_step_miss2 6 (by with_unfolding_all rfl) (by with_unfolding_all rfl)

lemma sigB12 : sigSearch (1931398576417993/2251799813685248 : ℚ) (1931398576417993/2251799813685248 : ℚ) (-1) 6 12 = sigSearch (1931398576417993/2251799813685248 : ℚ) (1931398576417993/2251799813685248 : ℚ) (-1) 5 13 :=
  sigSearch_step_miss2 5 (by with_unfolding_all rfl) (by with_unfolding_all rfl)

lemma sigB13 : sigSearch (1931398576417993/2251799813685248 : ℚ) (1931398576417993/2251799813685248 : ℚ) (-1) 5 13 = sigSearch (1931398576417993/2251799813685248 : ℚ) (1931398576417993/2251799813685248 : ℚ) (-1) 4 14 :=
  sigSearch_step_miss2 4 (by with_unfolding_all rfl) (by with_unfolding_all rfl)

lemma sigB14 : sigSearch (1931398576417993/2251799813685248 : ℚ) (1931398576417993/2251799813685248 : ℚ) (-1) 4 14 = sigSearch (1931398576417993/2251799813685248 : ℚ) (1931398576417993/2251799813685248 : ℚ) (-1) 3 15 :=
  sigSearch_step_miss2 3 (by with_unfolding_all rfl) (by with_unfolding_all rfl)

lemma sigB15 : sigSearch (1931398576417993/2251799813685248 : ℚ) (1931398576417993/2251799813685248 : ℚ) (-1) 3 15 = sigSearch (1931398576417993/2251799813685248 : ℚ) (1931398576417993/2251799813685248 : ℚ) (-1) 2 16 :=
  sigSearch_step_miss2 2 (by with_unfolding_all rfl) (by with_unfolding_all rfl)

lemma sigB16 : sigSearch (1931398576417993/2251799813685248 : ℚ) (1931398576417993/2251799813685248 : ℚ) (-1) 2 16 = (16, 8577132677070023, -1) :=
  sigSearch_step_hit2 1 (by with_unfolding_all rfl) (by with_unfolding_all rfl)

lemma sigB : sigSearch (1931398576417993/2251799813685248 : ℚ) (1931398576417993/2251799813685248 : ℚ) (-1) 17 1 = (16, 8577132677070023, -1) :=
  sigB1.trans (sigB2.trans (sigB3.trans (sigB4.trans (sigB5.trans (sigB6.trans (sigB7.trans (sigB8.trans (sigB9.trans (sigB10.trans (sigB11.trans (sigB12.trans (sigB13.trans (sigB14.trans (sigB15.trans (sigB16)))))))))))))))

lemma sigC1 : sigSearch (2452403965154369/4503599627370496 : ℚ) (2452403965154369/4503599627370496 : ℚ) (-1) 17 1 = sigSearch (2452403965154369/4503599627370496 : ℚ) (2452403965154369/4503599627370496 : ℚ) (-1) 16 2 :=
  sigSearch_step_miss2 16 (by with_unfolding_all rfl) (by with_unfolding_all rfl)

lemma sigC2 : sigSearch (2452403965154369/4503599627370496 : ℚ) (2452403965154369/4503599627370496 : ℚ) (-1) 16 2 = sigSearch (2452403965154369/4503599627370496 : ℚ) (2452403965154369/4503599627370496 : ℚ) (-1) 15 3 :=
  sigSearch_step_miss2 15 (by with_unfolding_all rfl) (by with_unfolding_all rfl)

lemma sigC3 : sigSearch (2452403965154369/4503599627370496 : ℚ) (2452403965154369/4503599627370496 : ℚ) (-1) 15 3 = sigSearch (2452403965154369/4503599627370496 : ℚ) (2452403965154369/4503599627370496 : ℚ) (-1) 14 4 :=
  sigSearch_step_miss2 14 (by with_unfolding_all rfl) (by with_unfolding_all rfl)

lemma sigC4 : sigSearch (2452403965154369/4503599627370496 : ℚ) (2452403965154369/4503599627370496 : ℚ) (-1) 14 4 = sigSearch (2452403965154369/4503599627370496 : ℚ) (2452403965154369/4503599627370496 : ℚ) (-1) 13 5 :=
  sigSearch_step_miss2 13 (by with_unfolding_all rfl) (by with_unfolding_all rfl)

lemma sigC5 : sigSearch (2452403965154369/4503599627370496 : ℚ) (2452403965154369/4503599627370496 : ℚ) (-1) 13 5 = sigSearch (2452403965154369/4503599627370496 : ℚ) (2452403965154369/4503599627370496 : ℚ) (-1) 12 6 :=
  sigSearch_step_miss2 12 (by with_unfolding_all rfl) (by with_unfolding_all rfl)

lemma sigC6 : sigSearch (2452403965154369/4503599627370496 : ℚ) (2452403965154369/4503599627370496 : ℚ) (-1) 12 6 = sigSearch (2452403965154369/4503599627370496 : ℚ) (2452403965154369/4503599627370496 : ℚ) (-1) 11 7 :=
  sigSearch_step_miss2 11 (by with_unfolding_all rfl) (by with_unfolding_all rfl)

lemma sigC7 : sigSearch (2452403965154369/4503599627370496 : ℚ) (2452403965154369/4503599627370496 : ℚ) (-1) 11 7 = sigSearch (2452403965154369/4503599627370496 : ℚ) (2452403965154369/4503599627370496 : ℚ) (-1) 10 8 :=
  sigSearch_step_miss2 10 (by with_unfolding_all rfl) (by with_unfolding_all rfl)

lemma sigC8 : sigSearch (2452403965154369/4503599627370496 : ℚ) (2452403965154369/4503599627370496 : ℚ) (-1) 10 8 = sigSearch (2452403965154369/4503599627370496 : ℚ) (2452403965154369/4503599627370496 : ℚ) (-1) 9 9 :=
  sigSearch_step_miss2 9 (by with_unfolding_all rfl) (by with_unfolding_all rfl)

lemma sigC9 : sigSearch (2452403965154369/4503599627370496 : ℚ) (2452403965154369/4503599627370496 : ℚ) (-1) 9 9 = sigSearch (2452403965154369/4503599627370496 : ℚ) (2452403965154369/4503599627370496 : ℚ) (-1) 8 10 :=
  sigSearch_step_miss2 8 (by with_unfolding_all rfl) (by with_unfolding_all rfl)

lemma sigC10 : sigSearch (2452403965154369/4503599627370496 : ℚ) (2452403965154369/4503599627370496 : ℚ) (-1) 8 10 = sigSearch (2452403965154369/4503599627370496 : ℚ) (2452403965154369/4503599627370496 : ℚ) (-1) 7 11 :=
  sigSearch_step_miss2 7 (by with_unfolding_all rfl) (by with_unfolding_all rfl)

lemma sigC11 : sigSearch (2452403965154369/4503599627370496 : ℚ) (2452403965154369/4503599627370496 : ℚ) (-1) 7 11 = sigSearch (2452403965154369/4503599627370496 : ℚ) (2452403965154369/4503599627370496 : ℚ) (-1) 6 12 :=
  sigSearch_step_miss2 6 (by with_unfolding_all rfl) (by with_unfolding_all rfl)

lemma sigC12 : sigSearch (2452403965154369/4503599627370496 : ℚ) (2452403965154369/4503599627370496 : ℚ) (-1) 6 12 = sigSearch (2452403965154369/4503599627370496 : ℚ) (2452403965154369/4503599627370496 : ℚ) (-1) 5 13 :=
  sigSearch_step_miss2 5 (by with_unfolding_all rfl) (by with_unfolding_all rfl)

lemma sigC13 : sigSearch (2452403965154369/4503599627370496 : ℚ) (2452403965154369/4503599627370496 : ℚ) (-1) 5 13 = sigSearch (2452403965154369/4503599627370496 : ℚ) (2452403965154369/4503599627370496 : ℚ) (-1) 4 14 :=
  sigSearch_step_miss2 4 (by with_unfolding_all rfl) (by with_unfolding_all rfl)

lemma sigC14 : sigSearch (2452403965154369/4503599627370496 : ℚ) (2452403965154369/4503599627370496 : ℚ) (-1) 4 14 = sigSearch (2452403965154369/4503599627370496 : ℚ) (2452403965154369/4503599627370496 : ℚ) (-1) 3 15 :=
  sigSearch_step_miss2 3 (by with_unfolding_all rfl) (by with_unfolding_all rfl)

lemma sigC15 : sigSearch (2452403965154369/4503599627370496 : ℚ) (2452403965154369/4503599627370496 : ℚ) (-1) 3 15 = sigSearch (2452403965154369/4503599627370496 : ℚ) (2452403965154369/4503599627370496 : ℚ) (-1) 2 16 :=
  sigSearch_step_miss2 2 (by with_unfolding_all rfl) (by with_unfolding_all rfl)

lemma sigC16 : sigSearch (2452403965154369/4503599627370496 : ℚ) (2452403965154369/4503599627370496 : ℚ) (-1) 2 16 = (16, 5445430695592821, -1) :=
  sigSearch_step_hit2 1 (by with_unfolding_all rfl) (by with_unfolding_all rfl)

lemma sigC : sigSearch (2452403965154369/4503599627370496 : ℚ) (2452403965154369/4503599627370496 : ℚ) (-1) 17 1 = (16, 5445430695592821, -1) :=
  sigC1.trans (sigC2.trans (sigC3.trans (sigC4.trans (sigC5.trans (sigC6.trans (sigC7.trans (sigC8.trans (sigC9.trans (sigC10.trans (sigC11.trans (sigC12.trans (sigC13.trans (sigC14.trans (sigC15.trans (sigC16)))))))))))))))

lemma sigE1 : sigSearch (5902958103587057/590295810358705651712 : ℚ) (5902958103587057/590295810358705651712 : ℚ) (-5) 17 1 = (1, 1, -5) :=
  sigSearch_step_hit2 16 (by with_unfolding_all rfl) (by with_unfolding_all rfl)

lemma sigE : sigSearch (5902958103587057/590295810358705651712 : ℚ) (5902958103587057/590295810358705651712 : ℚ) (-5) 17 1 = (1, 1, -5) :=
  sigE1

lemma reprA : reprDouble (1/65536 : ℚ) = ("1.52587890625e-05").toList := by
  have hne : ¬ (1/65536 : ℚ) = 0 := by norm_num
  have hnlt : ¬ (1/65536 : ℚ) < 0 := by norm_num
  unfold reprDouble
  rw [if_neg hne, if_neg hnlt]
  unfold reprPos
  have hnd : flogB 10 (1/65536 : ℚ) = -5 := by with_unfolding_all rfl
  rw [hnd, sigA]
  rw [if_neg (by decide)]
  with_unfolding_all rfl

lemma reprB : reprDouble (1931398576417993/2251799813685248 : ℚ) = ("0.8577132677070023").toList := by
  have hne : ¬ (1931398576417993/2251799813685248 : ℚ) = 0 := by norm_num
  have hnlt : ¬ (1931398576417993/2251799813685248 : ℚ) < 0 := by norm_num
  unfold reprDouble
  rw [if_neg hne, if_neg hnlt]
  unfold reprPos
  have hnd : flogB 10 (1931398576417993/2251799813685248 : ℚ) = -1 := by with_unfolding_all rfl
  rw [hnd, sigB]
  rw [if_pos (by decide)]
  with_unfolding_all rfl

lemma reprC : reprDouble (2452403965154369/4503599627370496 : ℚ) = ("0.5445430695592821").toList := by
  have hne : ¬ (2452403965154369/4503599627370496 : ℚ) = 0 := by norm_num
  have hnlt : ¬ (2452403965154369/4503599627370496 : ℚ) < 0 := by norm_num
  unfold reprDouble
  rw [if_neg hne, if_neg hnlt]
  unfold reprPos
  have hnd : flogB 10 (2452403965154369/4503599627370496 : ℚ) = -1 := by with_unfolding_all rfl
  rw [hnd, sigC]
  rw [if_pos (by decide)]
  with_unfolding_all rfl

lemma reprE : reprDouble (5902958103587057/590295810358705651712 : ℚ) = ("1e-05").toList := by
  have hne : ¬ (5902958103587057/590295810358705651712 : ℚ) = 0 := by norm_num
  have hnlt : ¬ (5902958103587057/590295810358705651712 : ℚ) < 0 := by norm_num
  unfold reprDouble
  rw [if_neg hne, if_neg hnlt]
  unfold reprPos
  have hnd : flogB 10 (5902958103587057/590295810358705651712 : ℚ) = -5 := by with_unfolding_all rfl
  rw [hnd, sigE]
  rw [if_neg (by decide)]
  with_unfolding_all rfl

lemma reprQ : reprDouble (1/4 : ℚ) = ("0.25").toList := by
  with_unfolding_all rfl

/-! ## Concrete digest-half and location evaluations -/

lemma fhA : fromhexVal (("0001000000000000").toList) = (1/65536 : ℚ) := by
  with_unfolding_all rfl

lemma fhD : fromhexVal (("4000000000000000").toList) = (1/4 : ℚ) := by
  with_unfolding_all rfl

lemma fhB : fromhexVal (("db9318c2259923d0").toList) = (1931398576417993/2251799813685248 : ℚ) := by
  with_unfolding_all rfl

lemma fhC : fromhexVal (("8b672cb305440f97").toList) = (2452403965154369/4503599627370496 : ℚ) := by
  with_unfolding_all rfl

lemma loc_c1 : hashToLocation 37 (-122) (("00010000000000004000000000000000").toList) =
    ((6922302843246095/18446744073709551616 : ℚ), (-489/4 : ℚ)) := by
  simp only [hashToLocation]
  rw [show ((("00010000000000004000000000000000").toList).take 16) =
      ("0001000000000000").toList from rfl]
  rw [show ((("00010000000000004000000000000000").toList).drop 16) =
      ("4000000000000000").toList from rfl]
  rw [fhA, fhD, reprA, reprQ]
  with_unfolding_all rfl

lemma loc_ref : hashToLocation 37 (-122) (("db9318c2259923d08b672cb305440f97").toList) =
    ((5327999480173261/140737488355328 : ℚ), (-8623305601630545/70368744177664 : ℚ)) := by
  simp only [hashToLocation]
  rw [show ((("db9318c2259923d08b672cb305440f97").toList).take 16) =
      ("db9318c2259923d0").toList from rfl]
  rw [show ((("db9318c2259923d08b672cb305440f97").toList).drop 16) =
      ("8b672cb305440f97").toList from rfl]
  rw [fhB, fhC, reprB, reprC]
  with_unfolding_all rfl

lemma foB : fracOffset (("db9318c2259923d0").toList) = (1931398576417993/2251799813685248 : ℚ) := by
  unfold fracOffset
  rw [fhB, reprB]
  with_unfolding_all rfl

lemma foC : fracOffset (("8b672cb305440f97").toList) = (2452403965154369/4503599627370496 : ℚ) := by
  unfold fracOffset
  rw [fhC, reprC]
  with_unfolding_all rfl

lemma globalhash_concrete :
    globalhash ⟨2005, 5, 26⟩ (some (("10458.68").toList)) envT =
      .ok ((2265465008180725/35184372088832 : ℚ), (564199176006903/35184372088832 : ℚ)) := by
  have hh : getHash (eastFlag (some true) 0) ⟨2005, 5, 26⟩
      (some (("10458.68").toList)) envT =
      .ok (("db9318c2259923d08b672cb305440f97").toList) := by
    with_unfolding_all rfl
  simp only [globalhash, geohash]
  rw [hh]
  simp only [Except.map]
  rw [hashToLocation_zero]
  rw [show ((("db9318c2259923d08b672cb305440f97").toList).take 16) =
      ("db9318c2259923d0").toList from rfl]
  rw [show ((("db9318c2259923d08b672cb305440f97").toList).drop 16) =
      ("8b672cb305440f97").toList from rfl]
  rw [foB, foC]
  with_unfolding_all rfl

lemma hx4 : roundDouble (1/100000) = (5902958103587057/590295810358705651712 : ℚ) := by
  with_unfolding_all rfl

lemma replaceTenths_sci_eval :
    replaceTenths (roundDouble (1/100000)) (1/2) = roundDouble (1/100000) := by
  rw [hx4]
  simp only [replaceTenths]
  have hold : (truncQ (roundDouble (|(5902958103587057/590295810358705651712 : ℚ)| * 10))).emod 10 = 0 := by
    with_unfolding_all rfl
  have hnew : (truncQ (roundDouble (|(1:ℚ)/2| * 10))).emod 10 = 5 := by
    with_unfolding_all rfl
  rw [hold, hnew, reprE]
  with_unfolding_all rfl

/-! # Claim theorems -/

/-- C1: REFUTED. The spec claims that decoding any 32-character hexadecimal
digest at any graticule preserves the graticule's truncated integer parts.
Counterexample: at graticule `(37, -122)` with the digest
`"00010000000000004000000000000000"`, the latitude half gives
`float.fromhex("0.0001000000000000") = 1.52587890625e-05`, whose repr is in
scientific notation; the spliced string `"37" ++ ".52587890625e-05"` parses
as `37.52587890625e-05 = 0.0003752587890625`, so the truncated integer part
of the produced latitude is `0`, not `37`. -/
theorem hash_to_location_breaks_graticule :
    (("00010000000000004000000000000000").toList).length = 32 ∧
    (("00010000000000004000000000000000").toList).all isHexCh = true ∧
    hashToLocation 37 (-122) (("00010000000000004000000000000000").toList) =
      (6922302843246095 / 18446744073709551616, -489/4) ∧
    truncQ (hashToLocation 37 (-122)
      (("00010000000000004000000000000000").toList)).1 = 0 := by
  refine ⟨by rfl, by rfl, loc_c1, ?_⟩
  rw [loc_c1]
  with_unfolding_all rfl

/-- C2: `get_hash` with a supplied index value returns exactly the MD5
hexdigest of `"<YYYY-MM-DD>-<indexText>"` — a pure function of the date and
the index text, hence identical across repeated calls with any compliance
flag and any network environment — and that digest is 32 lowercase
hexadecimal characters. -/
theorem get_hash_deterministic_hex32 :
    ∀ (east : Bool) (date : GDate) (s : List Char) (env : List Char → SourceResult),
      getHash east date (some s) env = .ok (md5HexCh (fmtDash date ++ '-' :: s)) ∧
      (md5HexCh (fmtDash date ++ '-' :: s)).length = 32 ∧
      (md5HexCh (fmtDash date ++ '-' :: s)).all isHexCh = true :=
  fun east date s env =>
    ⟨rfl, md5Hex_length ((fmtDash date ++ '-' :: s).map Char.toNat),
      md5HexCh_all_hex (fmtDash date ++ '-' :: s)⟩

/-- C3: with no explicit override, `geohash` derives the eastern flag as
`lon > -30` (eastern exactly when the longitude exceeds `-30`); an explicit
override is returned unconditionally, regardless of the longitude. -/
theorem east_resolution :
    ∀ lon : ℚ, (eastFlag none lon = true ↔ -30 < lon) ∧
      ∀ b : Bool, eastFlag (some b) lon = b := by
  intro lon
  have he : eastFlag none lon = decide (-30 < lon) := rfl
  refine ⟨?_, fun b => rfl⟩
  rw [he]
  exact ⟨of_decide_eq_true, decide_eq_true⟩

/-- C4: when the flag is eastern, `get_dow_jones` keys the fetch by the date
shifted back one day (and by the unshifted date when western), while the
string hashed by `get_hash` always embeds the original unshifted date
(`%Y-%m-%d`), in both the supplied-value and the fetched-value paths. -/
theorem east_shifts_fetch_not_digest :
    (∀ (date : GDate) (env : List Char → SourceResult),
      getDowJones true date env = dowLoop (fmtSlash (prevDay date)) env dowSources ∧
      getDowJones false date env = dowLoop (fmtSlash date) env dowSources) ∧
    ∀ (east : Bool) (date : GDate) (s : List Char) (env : List Char → SourceResult),
      getHash east date (some s) env = .ok (md5HexCh (fmtDash date ++ '-' :: s)) ∧
      getHash east date none env =
        (dowLoop (fmtSlash (if east then prevDay date else date)) env dowSources).map
          (fun v => md5HexCh (fmtDash date ++ '-' :: v)) :=
  ⟨fun date env => ⟨rfl, rfl⟩, fun east date s env => ⟨rfl, rfl⟩⟩

/-- C5: the retrieval loop of `get_dow_jones` traverses the sources in
order; if every source of a prefix fails (times out or answers non-200) and
the next source answers 200, it returns that source's stripped body — the
same result for every choice of later sources, which are never relevant —
and `get_dow_jones` raises the manual-value error exactly when every source
in its list fails. -/
theorem dow_jones_fallback :
    (∀ (key : List Char) (env : List Char → SourceResult)
      (urls₁ : List (List Char)) (u : List Char) (urls₂ : List (List Char))
      (b : List Char),
      (∀ u' ∈ urls₁, failsB (env (u' ++ key)) = true) →
      env (u ++ key) = .response 200 b →
      dowLoop key env (urls₁ ++ u :: urls₂) = .ok (pyStrip b)) ∧
    ∀ (east : Bool) (date : GDate) (env : List Char → SourceResult),
      getDowJones east date env = .error sourcesErrMsg ↔
        ∀ u ∈ dowSources,
          failsB (env (u ++ fmtSlash (if east then prevDay date else date))) = true := by
  constructor
  · intro key env urls₁ u urls₂ b hfail henv
    exact dowLoop_first_success henv urls₁ urls₂ hfail
  · intro east date env
    exact dowLoop_all_fail_iff dowSources

/-- Witness for C5: with sources `"a"`, `"b"` timing out and `"c"` answering
200, the loop returns `"c"`'s stripped body and the later source `"d"` is
irrelevant. -/
theorem dow_jones_fallback_witness :
    dowLoop (("k").toList) envW
      ([("a").toList, ("b").toList] ++ ("c").toList :: [("d").toList]) =
      .ok (pyStrip ((" body ").toList)) :=
  dow_jones_fallback.1 (("k").toList) envW [("a").toList, ("b").toList]
    (("c").toList) [("d").toList] ((" body ").toList)
    (by decide) (by rfl)

/-- C6: REFUTED. The spec claims `replace_tenths` replaces the tenths digit
of the computed value with the original's tenths digit. Counterexample: for
the computed value `1e-05` (the double nearest `1/100000`) and original
`0.5`, the original's tenths digit per the code's own formula is `5`, but
`str(1e-05)` is in scientific notation and contains no `".0"` substring, so
the textual replacement leaves the value unchanged and the result's tenths
digit is `0`, not `5`. -/
theorem replace_tenths_misses_sci :
    replaceTenths (roundDouble (1/100000)) (1/2) = roundDouble (1/100000) ∧
    truncQ (roundDouble (|(1:ℚ)/2| * 10)) % 10 = 5 ∧
    truncQ (roundDouble (|replaceTenths (roundDouble (1/100000)) (1/2)| * 10)) % 10
      = 0 := by
  refine ⟨replaceTenths_sci_eval, ?_, ?_⟩
  · with_unfolding_all rfl
  · rw [replaceTenths_sci_eval, hx4]
    with_unfolding_all rfl

/-- C7: for every 16-character lowercase-hexadecimal digest half, the
fractional offset derived from it — `float.fromhex("0." + h)` rendered by
repr, its leading character replaced by `0`, and the text parsed back to a
float — lies in `[0, 1)`. -/
theorem frac_offset_in_unit (h : List Char) (hlen : h.length = 16)
    (hhex : ∀ c ∈ h, isHexCh c = true) :
    0 ≤ fracOffset h ∧ fracOffset h < 1 :=
  fracOffset_bounds_aux hhex

/-- Witness for C7: the all-`f` digest half. -/
theorem frac_offset_in_unit_witness :
    0 ≤ fracOffset (("ffffffffffffffff").toList) ∧
      fracOffset (("ffffffffffffffff").toList) < 1 :=
  frac_offset_in_unit (("ffffffffffffffff").toList) (by rfl) (by decide)

/-- C8: every successful `globalhash` result — the graticule-(0,0) geohash
with the compliance flag forced eastern, rescaled by `lat*180 - 90` and
`lon*360 - 180` in double arithmetic — satisfies `-90 ≤ lat < 90` and
`-180 ≤ lon < 180`. -/
theorem globalhash_range :
    ∀ (date : GDate) (dj : Option (List Char)) (env : List Char → SourceResult)
      (p : ℚ × ℚ), globalhash date dj env = .ok p →
      -90 ≤ p.1 ∧ p.1 < 90 ∧ -180 ≤ p.2 ∧ p.2 < 180 := by
  intro date dj env p hp
  unfold globalhash at hp
  rcases hg : geohash 0 0 date dj (some true) env with e | q
  · rw [hg] at hp
    simp only [Except.map] at hp
    exact Except.noConfusion hp
  · rw [hg] at hp
    simp only [Except.map] at hp
    injection hp with hp2
    unfold geohash at hg
    rcases hh : getHash (eastFlag (some true) 0) date dj env with e2 | d
    · rw [hh] at hg
      simp only [Except.map] at hg
      exact Except.noConfusion hg
    · rw [hh] at hg
      simp only [Except.map] at hg
      injection hg with hg2
      obtain ⟨msg, rfl⟩ := getHash_ok_shape hh
      have hq : q = (fracOffset ((md5HexCh msg).take 16),
          fracOffset ((md5HexCh msg).drop 16)) := by
        rw [← hg2, hashToLocation_zero]
      have hlat := fracOffset_bounds_aux (md5HexCh_take16_hex msg)
      have hlon := fracOffset_bounds_aux (md5HexCh_drop16_hex msg)
      have hdl : fracOffset ((md5HexCh msg).take 16) = 0 ∨
          IsNormal (fracOffset ((md5HexCh msg).take 16)) := by
        rcases fracOffset_double ((md5HexCh msg).take 16) with h | h | h
        · exact Or.inl h
        · exact Or.inr h
        · exact absurd hlat.1 (not_le.mpr h)
      have hdr : fracOffset ((md5HexCh msg).drop 16) = 0 ∨
          IsNormal (fracOffset ((md5HexCh msg).drop 16)) := by
        rcases fracOffset_double ((md5HexCh msg).drop 16) with h | h | h
        · exact Or.inl h
        · exact Or.inr h
        · exact absurd hlon.1 (not_le.mpr h)
      obtain ⟨hA, hB⟩ := rescale_lat hlat.1 hlat.2 hdl
      obtain ⟨hC, hD⟩ := rescale_lon hlon.1 hlon.2 hdr
      subst hp2
      rw [hq]
      exact ⟨hA, hB, hC, hD⟩

/-- Witness for C8: the concrete run for 2005-05-26 with index value
`10458.68` (all network requests timing out; the value is supplied). -/
theorem globalhash_range_witness :
    -90 ≤ ((2265465008180725 : ℚ)/35184372088832) ∧
    ((2265465008180725 : ℚ)/35184372088832) < 90 ∧
    -180 ≤ ((564199176006903 : ℚ)/35184372088832) ∧
    ((564199176006903 : ℚ)/35184372088832) < 180 :=
  globalhash_range ⟨2005, 5, 26⟩ (some (("10458.68").toList)) envT
    (2265465008180725/35184372088832, 564199176006903/35184372088832)
    globalhash_concrete

/-- C9: the canonical xkcd example. For date 2005-05-26 and index value
`"10458.68"`, the digest is `db9318c2259923d08b672cb305440f97`, and decoding
it at graticule `(37, -122)` yields the doubles
`37.857713267707002 = 5327999480173261/2^47` and
`-122.54454306955928 = -8623305601630545/2^46`, for every compliance flag
and network environment. -/
theorem canonical_reference_vector :
    ∀ (east : Bool) (env : List Char → SourceResult),
      getHash east ⟨2005, 5, 26⟩ (some (("10458.68").toList)) env =
        .ok (("db9318c2259923d08b672cb305440f97").toList) ∧
      hashToLocation 37 (-122) (("db9318c2259923d08b672cb305440f97").toList) =
        (5327999480173261 / 140737488355328, -8623305601630545 / 70368744177664) := by
  intro east env
  exact ⟨by with_unfolding_all rfl, loc_ref⟩

/-- C10: when the index value is supplied, `geohash` performs no fetch and
its result is independent of the compliance flag (explicit or derived) and
of the network environment. -/
theorem geohash_ignores_compliance_when_dj_given :
    ∀ (lat lon : ℚ) (date : GDate) (s : List Char)
      (e₁ e₂ : Option Bool) (env₁ env₂ : List Char → SourceResult),
      geohash lat lon date (some s) e₁ env₁ = geohash lat lon date (some s) e₂ env₂ :=
  fun lat lon date s e₁ e₂ env₁ env₂ => rfl

end Geohashing
